import Mathlib

/-!
A verification development for the `spaceapi-explorer` repository.

The core under scrutiny is the status-document normalization layer
(`src/spaceapi/models.py`), the directory mapper
(`SpaceDirectory.from_dict`) and the fetch orchestrator
(`src/spaceapi/client.py`).  The Python code declares its models with
pydantic v1 (`validator`, `root_validator`, `HttpUrl`); the definitions
below embed the models together with pydantic 1.10's validation
semantics, which are part of the meaning of those declarations:

* an `Optional` field is `None` when the key is absent or its value is
  JSON `null`; a present value is coerced by the type's validator and a
  coercion failure is recorded as an error for that field;
* errors from all fields are collected; construction succeeds iff no
  error was recorded; a required field that is absent yields a
  `missing` error (pydantic's `field required`);
* a `pre=True` validator runs on the raw value before coercion; an
  exception it raises is caught and turned into a field error only if
  it is a `ValueError`/`TypeError`/`AssertionError`; an
  `AttributeError` (as raised by `validate_sensors` on a non-dict)
  propagates and aborts the whole construction;
* `HttpUrl(url)`, as `SpaceDirectory.from_dict` calls it, runs
  `str.__new__` and then `AnyUrl.__init__`, whose `scheme` parameter is
  required and keyword-only (pydantic 1.10 `networks.py`), so the call
  raises `TypeError` for every argument; `get_directory` catches only
  `RequestException` and `JSONDecodeError`, so that error escapes
  uncaught.

Deliberate abstractions, noted where they occur: numeric-string
coercions (`float("2.5")`, `int("3")`, `str(2.5)`) are not modelled
(such values are rejected rather than coerced); the url regex is
abstracted to "http/https scheme plus a nonempty host"; per-element
error locations inside lists and sub-models other than `location` are
coarsened to the enclosing field (success and failure are unaffected).
-/

namespace SpaceAPI

/-- A JSON-like value as produced by `response.json()`.  Python keeps
`int` and `float` apart, and the validators branch on that distinction,
so the embedding does too; floats are represented exactly as rationals. -/
inductive Json where
  | null
  | bool (b : Bool)
  | int (n : Int)
  | float (q : Rat)
  | str (s : String)
  | arr (xs : List Json)
  | obj (fields : List (String × Json))

/-- First-match lookup in an association list (a Python `dict` read). -/
def lookupJ (k : String) : List (String × α) → Option α
  | [] => none
  | (k', v) :: rest => if k' = k then some v else lookupJ k rest

/-- `values.get(k)`: absent keys read as `null` (Python `None`). -/
def getJ (fs : List (String × Json)) (k : String) : Json :=
  (lookupJ k fs).getD .null

/-- `k in values`. -/
def hasKey (k : String) (fs : List (String × Json)) : Bool :=
  (lookupJ k fs).isSome

/-- `values[k] = v`: replace the first binding of `k`, else append. -/
def setJ (k : String) (v : α) : List (String × α) → List (String × α)
  | [] => [(k, v)]
  | (k', v') :: rest => if k' = k then (k, v) :: rest else (k', v') :: setJ k v rest

/-- `values.pop(k)`. -/
def removeJ (k : String) (fs : List (String × Json)) : List (String × Json) :=
  fs.filter (fun p => p.1 ≠ k)

/-- Python truthiness of a JSON value. -/
def truthy : Json → Bool
  | .null => false
  | .bool b => b
  | .int n => n != 0
  | .float q => q != 0
  | .str s => s != ""
  | .arr xs => !xs.isEmpty
  | .obj fs => !fs.isEmpty

/-- `x.isNull`. -/
def isNull : Json → Bool
  | .null => true
  | _ => false

/-- Python `int(q)` on a float: truncation toward zero. -/
def pyTrunc (q : Rat) : Int :=
  q.num.tdiv q.den

/-- pydantic v1 `str_validator`.  Strings pass unchanged; `bool` (a
Python `int`) and `int` are rendered with `str`.  The float branch of
`str(v)` is not modelled (rejected instead of rendered). -/
def strCoerce : Json → Option String
  | .str s => some s
  | .bool b => some (if b then "True" else "False")
  | .int n => some (toString n)
  | _ => none

/-- pydantic v1 `bool_validator`: exact bools, the numbers `0`/`1`, and
the usual string spellings. -/
def boolCoerce : Json → Option Bool
  | .bool b => some b
  | .int n => if n = 1 then some true else if n = 0 then some false else none
  | .float q => if q = 1 then some true else if q = 0 then some false else none
  | .str s =>
      if s.toLower ∈ ["on", "t", "true", "y", "yes", "1"] then some true
      else if s.toLower ∈ ["off", "f", "false", "n", "no", "0"] then some false
      else none
  | _ => none

/-- pydantic v1 `float_validator` (`float(v)`); numeric strings are not
modelled. -/
def floatCoerce : Json → Option Rat
  | .float q => some q
  | .int n => some n
  | .bool b => some (if b then 1 else 0)
  | _ => none

/-- pydantic v1 `int_validator` (`int(v)`, truncating floats); numeric
strings are not modelled. -/
def intCoerce : Json → Option Int
  | .int n => some n
  | .float q => some (pyTrunc q)
  | .bool b => some (if b then 1 else 0)
  | _ => none

/-- Abstraction of pydantic v1's url regex for `HttpUrl`: an `http` or
`https` scheme followed by a nonempty host.  Userinfo, ports, allowed
character classes and the length limit are not modelled.  (Stated over
the character list of the string.) -/
def isHttpUrl (s : String) : Bool :=
  let cs := s.data
  let rest : Option (List Char) :=
    if cs.take 7 = "http://".data then some (cs.drop 7)
    else if cs.take 8 = "https://".data then some (cs.drop 8)
    else none
  match rest with
  | none => false
  | some r => !(r.takeWhile (fun c => c != '/' && c != '?' && c != '#')).isEmpty

/-- `HttpUrl` field validation: `str_validator` then the url regex. -/
def urlCoerce (v : Json) : Option String :=
  match strCoerce v with
  | some s => if isHttpUrl s then some s else none
  | none => none

/-- The kind of a pydantic field error. -/
inductive ErrKind where
  | missing
  | invalid
deriving DecidableEq

/-- One entry of a pydantic `ValidationError`: a location path and a
kind.  Inside lists and sub-models other than `location` the path is
coarsened to the enclosing field. -/
structure FieldError where
  loc : List String
  kind : ErrKind
deriving DecidableEq

/-- How `SpaceStatus(**data)` can fail: `malformed` models the
`TypeError` raised by `**` on a non-mapping, `exception` an uncaught
exception escaping a validator (the `AttributeError` of
`validate_sensors`), `invalid` a `ValidationError` with its collected
field errors. -/
inductive NormFailure where
  | malformed
  | exception (loc : List String)
  | invalid (errs : List FieldError)
deriving DecidableEq

/-- `class SpaceContact` (all fields `Optional[str]`). -/
structure SpaceContact where
  email : Option String
  irc : Option String
  ml : Option String
  twitter : Option String
  facebook : Option String
  mastodon : Option String
  phone : Option String
  sip : Option String
  jabber : Option String
  issue_mail : Option String

/-- `class SpaceLocation`. -/
structure SpaceLocation where
  address : Option String
  lat : Option Rat
  lon : Option Rat
  timezone : Option String

/-- `class SpaceStateIcon` (both urls required). -/
structure SpaceStateIcon where
  open_ : String
  closed : String

/-- `class SpaceState`.  `lastchange : Optional[Union[int, float]]`. -/
structure SpaceState where
  open_ : Option Bool
  lastchange : Option (Int ⊕ Rat)
  trigger_person : Option String
  message : Option String
  icon : Option SpaceStateIcon

/-- `class SpaceEvent`; `extra : Optional[Union[Dict[str, Any], str]]`. -/
structure SpaceEvent where
  name : String
  type_ : Option String
  timestamp : Option Int
  extra : Option (List (String × Json) ⊕ String)

/-- `class SpaceProject` (`url` required). -/
structure SpaceProject where
  name : Option String
  url : String
  description : Option String
  type_ : Option String

/-- `class SpaceSensor`; `value : Optional[Union[float, int, str, None]]`
(the `float` branch is tried first, so ints land in it). -/
structure SpaceSensor where
  name : Option String
  unit : Option String
  value : Option (Rat ⊕ String)
  location : Option String
  names : Option (List String)
  timestamp : Option Int

/-- One element of a sensors category:
`Union[SpaceSensor, Dict[str, Any], None]`, tried in that order. -/
inductive SensorEntry where
  | sensor (s : SpaceSensor)
  | raw (d : List (String × Json))
  | none_

/-- `class SpaceStatus`, fields in declaration order. -/
structure SpaceStatus where
  api_compatibility : Option (List String)
  api : Option String
  space : String
  logo : Option String
  url : Option String
  location : Option SpaceLocation
  contact : Option SpaceContact
  issue_report_channels : Option (List String)
  state : Option SpaceState
  events : Option (List SpaceEvent)
  projects : Option (List (String ⊕ SpaceProject))
  spacefed : Option (List (String × Bool))
  cam : Option (List String)
  feed : Option (List (String × String))
  radio_show : Option (List String)
  cache : Option (List (String × Json))
  projects_url : Option String
  sensors : Option (List (String × List SensorEntry))
  links : Option (List (List (String × Json)))
  icon : Option SpaceStateIcon
  times : Option (List (String × Json))

/-- Validation of one `Optional` value: `null` means `None`, anything
else must coerce.  `none` is a failed validation. -/
def optVal (coe : Json → Option α) : Json → Option (Option α)
  | .null => some none
  | v => (coe v).map some

/-- Validation of an `Optional` field of a sub-model: an absent key and
an explicit `null` both give `None`. -/
def optF (coe : Json → Option α) (fs : List (String × Json)) (k : String) :
    Option (Option α) :=
  optVal coe (getJ fs k)

/-- Validation of a required field of a sub-model (coarse: a missing
key and a failed coercion are both a failed validation here). -/
def reqF (coe : Json → Option α) (fs : List (String × Json)) (k : String) :
    Option α :=
  (lookupJ k fs).bind coe

/-- Element-wise validation of a list, failing when any element fails
(an explicit recursion; `Option`-monadic `mapM`). -/
def mapMO (f : α → Option β) : List α → Option (List β)
  | [] => some []
  | x :: xs =>
      match f x with
      | none => none
      | some b =>
          match mapMO f xs with
          | none => none
          | some bs => some (b :: bs)

/-- `List[T]` validation: only actual lists are accepted. -/
def listCoerce (coe : Json → Option α) : Json → Option (List α)
  | .arr xs => mapMO coe xs
  | _ => none

/-- `Dict[str, T]` validation: only actual dicts are accepted. -/
def dictCoerce (coe : Json → Option α) : Json → Option (List (String × α))
  | .obj fs => mapMO (fun p => (coe p.2).map (fun a => (p.1, a))) fs
  | _ => none

/-- `Optional[List[str]]` element validation. -/
def strListCoerce : Json → Option (List String) :=
  listCoerce strCoerce

/-- `SpaceContact` from a JSON value (a sub-model needs a dict). -/
def contactCoerce : Json → Option SpaceContact
  | .obj fs => do
      let email ← optF strCoerce fs "email"
      let irc ← optF strCoerce fs "irc"
      let ml ← optF strCoerce fs "ml"
      let twitter ← optF strCoerce fs "twitter"
      let facebook ← optF strCoerce fs "facebook"
      let mastodon ← optF strCoerce fs "mastodon"
      let phone ← optF strCoerce fs "phone"
      let sip ← optF strCoerce fs "sip"
      let jabber ← optF strCoerce fs "jabber"
      let issue_mail ← optF strCoerce fs "issue_mail"
      pure ⟨email, irc, ml, twitter, facebook, mastodon, phone, sip, jabber, issue_mail⟩
  | _ => none

/-- `SpaceStateIcon` from a JSON value: `open` and `closed` are
required `HttpUrl`s. -/
def iconCoerce : Json → Option SpaceStateIcon
  | .obj fs => do
      let o ← reqF urlCoerce fs "open"
      let c ← reqF urlCoerce fs "closed"
      pure ⟨o, c⟩
  | _ => none

/-- `SpaceState.validate_timestamp` (`pre=True`): floats are truncated
with `int(v)` first, then a negative value becomes `None`.  A value the
comparison `v < 0` rejects (`str`, list, dict) raises a `TypeError`,
which pydantic catches as a field error; Python bools are ints and pass
through the comparison. -/
def validateTimestamp : Json → Except Unit Json
  | .null => .ok .null
  | .float q => if pyTrunc q < 0 then .ok .null else .ok (.int (pyTrunc q))
  | .int n => if n < 0 then .ok .null else .ok (.int n)
  | .bool b => .ok (.bool b)
  | _ => .error ()

/-- One present `lastchange` value: the `pre` validator, then
`Union[int, float]` coercion (v1 tries `int(v)` first, so the float
branch is unreachable from JSON input). -/
def lastchangeVal (v : Json) : Option (Option (Int ⊕ Rat)) :=
  match validateTimestamp v with
  | .error _ => none
  | .ok .null => some none
  | .ok v2 =>
      match intCoerce v2 with
      | some n => some (some (.inl n))
      | none => (floatCoerce v2).map (fun q => some (.inr q))

/-- The `lastchange` field of `SpaceState`. -/
def lastchangeF (fs : List (String × Json)) : Option (Option (Int ⊕ Rat)) :=
  match lookupJ "lastchange" fs with
  | none => some none
  | some v => lastchangeVal v

/-- `SpaceState` from a JSON value. -/
def stateCoerce : Json → Option SpaceState
  | .obj fs => do
      let open_ ← optF boolCoerce fs "open"
      let lastchange ← lastchangeF fs
      let trigger_person ← optF strCoerce fs "trigger_person"
      let message ← optF strCoerce fs "message"
      let icon ← optF iconCoerce fs "icon"
      pure ⟨open_, lastchange, trigger_person, message, icon⟩
  | _ => none

/-- `extra : Union[Dict[str, Any], str]`, tried in that order. -/
def extraCoerce : Json → Option (List (String × Json) ⊕ String)
  | .obj fs => some (.inl fs)
  | .str s => some (.inr s)
  | _ => none

/-- `SpaceEvent` from a JSON value (`name` is required). -/
def eventCoerce : Json → Option SpaceEvent
  | .obj fs => do
      let name ← reqF strCoerce fs "name"
      let type_ ← optF strCoerce fs "type"
      let timestamp ← optF intCoerce fs "timestamp"
      let extra ← optF extraCoerce fs "extra"
      pure ⟨name, type_, timestamp, extra⟩
  | _ => none

/-- `SpaceProject` from a JSON value (`url` is required). -/
def projectCoerce : Json → Option SpaceProject
  | .obj fs => do
      let name ← optF strCoerce fs "name"
      let url ← reqF urlCoerce fs "url"
      let description ← optF strCoerce fs "description"
      let type_ ← optF strCoerce fs "type"
      pure ⟨name, url, description, type_⟩
  | _ => none

/-- A `projects` element: `Union[HttpUrl, SpaceProject]`, url first. -/
def projectItemCoerce (v : Json) : Option (String ⊕ SpaceProject) :=
  match urlCoerce v with
  | some u => some (.inl u)
  | none =>
      match v with
      | .obj fs => (projectCoerce (.obj fs)).map .inr
      | _ => none

/-- The sensor `value` field: `Union[float, int, str, None]`; v1 tries
`float(v)` first, so ints and bools land in the float branch and the
separate int branch is unreachable. -/
def valueCoerce (v : Json) : Option (Rat ⊕ String) :=
  match floatCoerce v with
  | some q => some (.inl q)
  | none => (strCoerce v).map .inr

/-- `names : Optional[List[str]]` of a sensor. -/
def namesCoerce : Json → Option (List String) :=
  strListCoerce

/-- `SpaceSensor(**d)` on a dict (extra keys are ignored). -/
def sensorOfDict (d : List (String × Json)) : Option SpaceSensor := do
  let name ← optF strCoerce d "name"
  let unit ← optF strCoerce d "unit"
  let value ← optF valueCoerce d "value"
  let location ← optF strCoerce d "location"
  let names ← optF namesCoerce d "names"
  let timestamp ← optF intCoerce d "timestamp"
  pure ⟨name, unit, value, location, names, timestamp⟩

/-- A sensors-category element after cleaning:
`Union[SpaceSensor, Dict[str, Any], None]` in declaration order; a dict
that fails `SpaceSensor` validation is kept as a raw dict. -/
def sensorEntryCoerce : Json → Option SensorEntry
  | .null => some .none_
  | .obj d => some (match sensorOfDict d with
      | some s => .sensor s
      | none => .raw d)
  | _ => none

/-- How the body of `validate_sensors` can blow up: a `TypeError`
(caught by pydantic as a field error) from iterating a non-iterable
category value, or an `AttributeError` (uncaught, aborts the whole
construction) from `.items()` on a non-dict. -/
inductive SensErr where
  | typeErr
  | attrErr

/-- Python iteration, as used by `for sensor in sensors`: lists yield
their elements, strings their one-character substrings, dicts their
keys; numbers and booleans raise `TypeError`. -/
def pyIter : Json → Except Unit (List Json)
  | .arr xs => .ok xs
  | .str s => .ok (s.toList.map (fun c => .str (String.singleton c)))
  | .obj fs => .ok (fs.map (fun p => Json.str p.1))
  | _ => .error ()

/-- One reading of a category in `validate_sensors`: `None` is dropped;
a dict has its `null`-valued pairs stripped and, when no `name` key
survives, gets `"<category>_sensor"` appended; anything else passes
through unchanged. -/
def cleanSensorEntry (cat : String) : Json → Option Json
  | .null => none
  | .obj d =>
      let cleaned := d.filter (fun p => !isNull p.2)
      some (.obj (if (lookupJ "name" cleaned).isSome then cleaned
        else cleaned ++ [("name", .str (cat ++ "_sensor"))]))
  | v => some v

/-- The category loop of `validate_sensors`: `null` categories are
skipped, each remaining one is iterated and cleaned, and a category
whose cleaned list is empty is dropped. -/
def cleanCats : List (String × Json) → Except SensErr (List (String × Json))
  | [] => .ok []
  | (cat, v) :: rest =>
      if isNull v then cleanCats rest
      else
        match pyIter v with
        | .error _ => .error .typeErr
        | .ok xs =>
            let cleaned := xs.filterMap (cleanSensorEntry cat)
            match cleanCats rest with
            | .error e => .error e
            | .ok restC =>
                .ok (if cleaned.isEmpty then restC else (cat, .arr cleaned) :: restC)

/-- `SpaceStatus.validate_sensors` (`pre=True`): `None` passes through,
a dict is cleaned (and becomes `None` when nothing survives), anything
else raises `AttributeError` at `.items()`. -/
def validateSensorsPre : Json → Except SensErr Json
  | .null => .ok .null
  | .obj cats =>
      (cleanCats cats).map (fun c => if c.isEmpty then .null else .obj c)
  | _ => .error .attrErr

/-- First half of `SpaceStatus.handle_api_versions`: a legacy `api`
with no `api_compatibility` key is popped and, when truthy, wrapped as
the one-element `api_compatibility`. -/
def handleApiLegacy (values : List (String × Json)) : List (String × Json) :=
  if hasKey "api" values && !hasKey "api_compatibility" values then
    if truthy (getJ values "api") then
      setJ "api_compatibility" (.arr [getJ values "api"]) (removeJ "api" values)
    else removeJ "api" values
  else values

/-- Second half of `SpaceStatus.handle_api_versions`: when both
version fields read falsy, `api_compatibility` defaults to `["14"]`. -/
def handleApiDefault (values : List (String × Json)) : List (String × Json) :=
  if !truthy (getJ values "api_compatibility") && !truthy (getJ values "api") then
    setJ "api_compatibility" (.arr [.str "14"]) values
  else values

/-- `SpaceStatus.handle_api_versions` (`root_validator(pre=True)`). -/
def handleApiVersions (values : List (String × Json)) : List (String × Json) :=
  handleApiDefault (handleApiLegacy values)

/-- `lat`, with its `ge=-90, le=90` range constraint. -/
def latCoerce (v : Json) : Option Rat :=
  match floatCoerce v with
  | some q => if -90 ≤ q ∧ q ≤ 90 then some q else none
  | none => none

/-- `lon`, with its `ge=-180, le=180` range constraint. -/
def lonCoerce (v : Json) : Option Rat :=
  match floatCoerce v with
  | some q => if -180 ≤ q ∧ q ≤ 180 then some q else none
  | none => none

/-- The fields of `SpaceLocation`, all optional. -/
def locOk (fs : List (String × Json)) : Option SpaceLocation := do
  let address ← optF strCoerce fs "address"
  let lat ← optF latCoerce fs "lat"
  let lon ← optF lonCoerce fs "lon"
  let timezone ← optF strCoerce fs "timezone"
  pure ⟨address, lat, lon, timezone⟩

/-- The per-field errors of a `SpaceLocation` validation, in
declaration order (this sub-model keeps fine-grained locations). -/
def locErrs (fs : List (String × Json)) : List FieldError :=
  (if (optF strCoerce fs "address").isNone then [⟨["address"], .invalid⟩] else [])
    ++ (if (optF latCoerce fs "lat").isNone then [⟨["lat"], .invalid⟩] else [])
    ++ (if (optF lonCoerce fs "lon").isNone then [⟨["lon"], .invalid⟩] else [])
    ++ (if (optF strCoerce fs "timezone").isNone then [⟨["timezone"], .invalid⟩] else [])

/-- `SpaceLocation` validation with its error list. -/
def vLocation : Json → Except (List FieldError) SpaceLocation
  | .obj fs =>
      match locOk fs with
      | some l => .ok l
      | none => .error (locErrs fs)
  | _ => .error [⟨[], .invalid⟩]

/-- An `Optional` top-level field of `SpaceStatus`: absent and `null`
are `None`, a failed coercion is one error at that field. -/
def fld (coe : Json → Option α) (vs : List (String × Json)) (k : String) :
    Except (List FieldError) (Option α) :=
  match optF coe vs k with
  | some o => .ok o
  | none => .error [⟨[k], .invalid⟩]

/-- `space : str`, the only required top-level field: an absent key is
pydantic's `field required`. -/
def vSpace (vs : List (String × Json)) : Except (List FieldError) String :=
  match lookupJ "space" vs with
  | none => .error [⟨["space"], .missing⟩]
  | some v =>
      match strCoerce v with
      | some s => .ok s
      | none => .error [⟨["space"], .invalid⟩]

/-- The `location` field, keeping nested error locations. -/
def vLocationFld (vs : List (String × Json)) :
    Except (List FieldError) (Option SpaceLocation) :=
  match lookupJ "location" vs with
  | none => .ok none
  | some .null => .ok none
  | some v =>
      match vLocation v with
      | .ok l => .ok (some l)
      | .error es => .error (es.map (fun e => ⟨"location" :: e.loc, e.kind⟩))

/-- A `links` element: `Dict[str, Any]`. -/
def objCoerce : Json → Option (List (String × Json))
  | .obj fs => some fs
  | _ => none

def vApiCompat (vs : List (String × Json)) := fld strListCoerce vs "api_compatibility"

def vApi (vs : List (String × Json)) := fld strCoerce vs "api"

def vLogo (vs : List (String × Json)) := fld urlCoerce vs "logo"

def vUrl (vs : List (String × Json)) := fld urlCoerce vs "url"

def vContact (vs : List (String × Json)) := fld contactCoerce vs "contact"

def vIssueReport (vs : List (String × Json)) := fld strListCoerce vs "issue_report_channels"

def vState (vs : List (String × Json)) := fld stateCoerce vs "state"

def vEvents (vs : List (String × Json)) := fld (listCoerce eventCoerce) vs "events"

def vProjects (vs : List (String × Json)) := fld (listCoerce projectItemCoerce) vs "projects"

def vSpacefed (vs : List (String × Json)) := fld (dictCoerce boolCoerce) vs "spacefed"

def vCam (vs : List (String × Json)) := fld (listCoerce urlCoerce) vs "cam"

def vFeed (vs : List (String × Json)) := fld (dictCoerce urlCoerce) vs "feed"

def vRadioShow (vs : List (String × Json)) := fld (listCoerce urlCoerce) vs "radio_show"

def vCache (vs : List (String × Json)) := fld (dictCoerce some) vs "cache"

def vProjectsUrl (vs : List (String × Json)) := fld urlCoerce vs "projects_url"

def vLinks (vs : List (String × Json)) := fld (listCoerce objCoerce) vs "links"

def vIconFld (vs : List (String × Json)) := fld iconCoerce vs "icon"

def vTimes (vs : List (String × Json)) := fld (dictCoerce some) vs "times"

/-- The `sensors` field validator applied to the value the `pre`
validator produced. -/
def vSensorsFld (cleaned : Json) :
    Except (List FieldError) (Option (List (String × List SensorEntry))) :=
  match optVal (dictCoerce (listCoerce sensorEntryCoerce)) cleaned with
  | some o => .ok o
  | none => .error [⟨["sensors"], .invalid⟩]

/-- Errors of one field validation. -/
def eOf : Except (List FieldError) α → List FieldError
  | .ok _ => []
  | .error es => es

/-- The record assembled from the 21 field validators (each validator
result read off with a default that is only reached when that
validator failed, in which case the record is discarded); `sens` is the
already-computed result for `sensors`. -/
def build (vs : List (String × Json))
    (sens : Except (List FieldError) (Option (List (String × List SensorEntry)))) :
    SpaceStatus :=
  ⟨(vApiCompat vs).toOption.getD none, (vApi vs).toOption.getD none,
    (vSpace vs).toOption.getD "", (vLogo vs).toOption.getD none,
    (vUrl vs).toOption.getD none, (vLocationFld vs).toOption.getD none,
    (vContact vs).toOption.getD none, (vIssueReport vs).toOption.getD none,
    (vState vs).toOption.getD none, (vEvents vs).toOption.getD none,
    (vProjects vs).toOption.getD none, (vSpacefed vs).toOption.getD none,
    (vCam vs).toOption.getD none, (vFeed vs).toOption.getD none,
    (vRadioShow vs).toOption.getD none, (vCache vs).toOption.getD none,
    (vProjectsUrl vs).toOption.getD none, sens.toOption.getD none,
    (vLinks vs).toOption.getD none, (vIconFld vs).toOption.getD none,
    (vTimes vs).toOption.getD none⟩

/-- All collected field errors, in declaration order (pydantic collects
every field's errors into one `ValidationError`). -/
def fieldsErrs (vs : List (String × Json))
    (sens : Except (List FieldError) (Option (List (String × List SensorEntry)))) :
    List FieldError :=
  eOf (vApiCompat vs) ++ eOf (vApi vs) ++ eOf (vSpace vs) ++ eOf (vLogo vs)
    ++ eOf (vUrl vs) ++ eOf (vLocationFld vs) ++ eOf (vContact vs)
    ++ eOf (vIssueReport vs) ++ eOf (vState vs) ++ eOf (vEvents vs)
    ++ eOf (vProjects vs) ++ eOf (vSpacefed vs) ++ eOf (vCam vs)
    ++ eOf (vFeed vs) ++ eOf (vRadioShow vs) ++ eOf (vCache vs)
    ++ eOf (vProjectsUrl vs) ++ eOf sens ++ eOf (vLinks vs)
    ++ eOf (vIconFld vs) ++ eOf (vTimes vs)

/-- Success iff no field recorded an error (every failed validator
contributes a nonempty error list). -/
def finish (vs : List (String × Json))
    (sens : Except (List FieldError) (Option (List (String × List SensorEntry)))) :
    Except NormFailure SpaceStatus :=
  if fieldsErrs vs sens = [] then .ok (build vs sens)
  else .error (.invalid (fieldsErrs vs sens))

/-- `SpaceStatus(**data)`: a non-dict raises `TypeError` at `**`
(`malformed`); the `pre` root validator rewrites the version fields;
the sensors `pre` validator runs (its `AttributeError` aborts
everything, its `TypeError` is one field error); then all fields are
validated and the errors collected. -/
def normalize (j : Json) : Except NormFailure SpaceStatus :=
  match j with
  | .obj fs =>
      let vs := handleApiVersions fs
      match validateSensorsPre (getJ vs "sensors") with
      | .error .attrErr => .error (.exception ["sensors"])
      | .error .typeErr => finish vs (.error [⟨["sensors"], .invalid⟩])
      | .ok cleaned => finish vs (vSensorsFld cleaned)
  | _ => .error .malformed

/-- `class SpaceDirectory`. -/
structure SpaceDirectory where
  spaces : List (String × String)

/-- The call `HttpUrl(url)` as `from_dict` makes it: `AnyUrl.__new__`
is a plain `str.__new__`, but Python then invokes
`AnyUrl.__init__(url)`, whose `scheme` parameter is required and
keyword-only (pydantic 1.10 `networks.py`), so the call raises
`TypeError: missing 1 required keyword-only argument: 'scheme'`
whatever the argument is. -/
def HttpUrlCall (_url : String) : Except Unit String :=
  .error ()

/-- The `for name, url in data.items()` loop of `from_dict`: the body
evaluates `HttpUrl(url)`, which raises, so the loop raises at its
first entry and only an empty dict runs to completion. -/
def fromDictLoop : List (String × String) → Except Unit (List (String × String))
  | [] => .ok []
  | (name, url) :: rest => do
      let u ← HttpUrlCall url
      let tail ← fromDictLoop rest
      pure ((name, u) :: tail)

/-- `SpaceDirectory.from_dict`, typed by its annotation
`data: Dict[str, str]`: the loop builds `spaces`, then
`cls(spaces=spaces)` — reachable only with the empty mapping, which an
empty `Dict[str, HttpUrl]` field accepts.  The `TypeError` raised on
any entry escapes `get_directory`, which catches only
`RequestException` and `JSONDecodeError`. -/
def SpaceDirectory.from_dict (data : List (String × String)) :
    Except Unit SpaceDirectory :=
  (fromDictLoop data).map SpaceDirectory.mk

/-- What one endpoint fetch produced, seen from
`SpaceAPIClient.get_space_status`: a transport-level failure (timeouts,
connection errors and retried-to-exhaustion HTTP statuses all surface
as a caught `RequestException`), an unparseable body, or a parsed JSON
body. -/
inductive HttpResult where
  | transportError
  | invalidJson
  | json (body : Json)

/-- `SpaceAPIClient.get_space_status`: every failure — transport, JSON
decoding, and any exception out of `SpaceStatus(**space_data)` — is
caught and becomes `None`. -/
def getSpaceStatus (resp : HttpResult) : Option SpaceStatus :=
  match resp with
  | .transportError => none
  | .invalidJson => none
  | .json j =>
      match normalize j with
      | .ok s => some s
      | .error _ => none

/-- `SpaceAPIClient.get_multiple_space_statuses`: one future per
submitted url; `as_completed` delivers `(url, status)` pairs in some
completion order (any permutation of the submitted urls) and each is
written into the result dict under its url.  `responses` gives the
terminal outcome of each url's fetch. -/
def getMultipleSpaceStatuses (responses : String → HttpResult)
    (order : List String) : List (String × Option SpaceStatus) :=
  order.foldl (fun acc u => setJ u (getSpaceStatus (responses u)) acc) []

/-- `None` → `null`, otherwise serialize the payload. -/
def jOpt (f : α → Json) : Option α → Json
  | none => .null
  | some a => f a

/-- A string list back to JSON. -/
def jStrList (l : List String) : Json :=
  .arr (l.map .str)

/-- A string-keyed mapping back to JSON. -/
def jDict (f : α → Json) (l : List (String × α)) : Json :=
  .obj (l.map (fun p => (p.1, f p.2)))

def SpaceContact.toJson (c : SpaceContact) : Json :=
  .obj [("email", jOpt .str c.email), ("irc", jOpt .str c.irc),
    ("ml", jOpt .str c.ml), ("twitter", jOpt .str c.twitter),
    ("facebook", jOpt .str c.facebook), ("mastodon", jOpt .str c.mastodon),
    ("phone", jOpt .str c.phone), ("sip", jOpt .str c.sip),
    ("jabber", jOpt .str c.jabber), ("issue_mail", jOpt .str c.issue_mail)]

def SpaceLocation.toJson (l : SpaceLocation) : Json :=
  .obj [("address", jOpt .str l.address), ("lat", jOpt .float l.lat),
    ("lon", jOpt .float l.lon), ("timezone", jOpt .str l.timezone)]

def SpaceStateIcon.toJson (i : SpaceStateIcon) : Json :=
  .obj [("open", .str i.open_), ("closed", .str i.closed)]

/-- `lastchange` back to JSON: whichever branch of
`Union[int, float]` the record holds. -/
def jLastchange : Int ⊕ Rat → Json
  | .inl n => .int n
  | .inr q => .float q

def SpaceState.toJson (s : SpaceState) : Json :=
  .obj [("open", jOpt .bool s.open_),
    ("lastchange", jOpt jLastchange s.lastchange),
    ("trigger_person", jOpt .str s.trigger_person),
    ("message", jOpt .str s.message),
    ("icon", jOpt SpaceStateIcon.toJson s.icon)]

def jExtra : List (String × Json) ⊕ String → Json
  | .inl fs => .obj fs
  | .inr s => .str s

def SpaceEvent.toJson (e : SpaceEvent) : Json :=
  .obj [("name", .str e.name), ("type", jOpt .str e.type_),
    ("timestamp", jOpt .int e.timestamp), ("extra", jOpt jExtra e.extra)]

def SpaceProject.toJson (p : SpaceProject) : Json :=
  .obj [("name", jOpt .str p.name), ("url", .str p.url),
    ("description", jOpt .str p.description), ("type", jOpt .str p.type_)]

def jProjectItem : String ⊕ SpaceProject → Json
  | .inl u => .str u
  | .inr p => p.toJson

/-- A sensor `value` back to JSON. -/
def jValue : Rat ⊕ String → Json
  | .inl q => .float q
  | .inr s => .str s

def SpaceSensor.toJson (s : SpaceSensor) : Json :=
  .obj [("name", jOpt .str s.name), ("unit", jOpt .str s.unit),
    ("value", jOpt jValue s.value), ("location", jOpt .str s.location),
    ("names", jOpt jStrList s.names), ("timestamp", jOpt .int s.timestamp)]

def SensorEntry.toJson : SensorEntry → Json
  | .sensor s => s.toJson
  | .raw d => .obj d
  | .none_ => .null

def jSensors (m : List (String × List SensorEntry)) : Json :=
  jDict (fun l => .arr (l.map SensorEntry.toJson)) m

/-- Modelled from the spec: `serialize` of the idempotence property
(`normalize(serialize(normalize(doc)))`) has no counterpart under
`src/`; the natural serialization of a pydantic v1 model is `.dict()` /
`.json()`, which emits every declared field in declaration order, with
`null` for `None`. -/
def SpaceStatus.serialize (r : SpaceStatus) : Json :=
  .obj [("api_compatibility", jOpt jStrList r.api_compatibility),
    ("api", jOpt .str r.api),
    ("space", .str r.space),
    ("logo", jOpt .str r.logo),
    ("url", jOpt .str r.url),
    ("location", jOpt SpaceLocation.toJson r.location),
    ("contact", jOpt SpaceContact.toJson r.contact),
    ("issue_report_channels", jOpt jStrList r.issue_report_channels),
    ("state", jOpt SpaceState.toJson r.state),
    ("events", jOpt (fun l => .arr (l.map SpaceEvent.toJson)) r.events),
    ("projects", jOpt (fun l => .arr (l.map jProjectItem)) r.projects),
    ("spacefed", jOpt (jDict .bool) r.spacefed),
    ("cam", jOpt jStrList r.cam),
    ("feed", jOpt (jDict .str) r.feed),
    ("radio_show", jOpt jStrList r.radio_show),
    ("cache", jOpt (jDict id) r.cache),
    ("projects_url", jOpt .str r.projects_url),
    ("sensors", jOpt jSensors r.sensors),
    ("links", jOpt (fun l => .arr (l.map .obj)) r.links),
    ("icon", jOpt SpaceStateIcon.toJson r.icon),
    ("times", jOpt (jDict id) r.times)]

/-- The field list of a serialized record (the object
`SpaceStatus.serialize` wraps). -/
def serFields (r : SpaceStatus) : List (String × Json) :=
  [("api_compatibility", jOpt jStrList r.api_compatibility),
    ("api", jOpt .str r.api),
    ("space", .str r.space),
    ("logo", jOpt .str r.logo),
    ("url", jOpt .str r.url),
    ("location", jOpt SpaceLocation.toJson r.location),
    ("contact", jOpt SpaceContact.toJson r.contact),
    ("issue_report_channels", jOpt jStrList r.issue_report_channels),
    ("state", jOpt SpaceState.toJson r.state),
    ("events", jOpt (fun l => .arr (l.map SpaceEvent.toJson)) r.events),
    ("projects", jOpt (fun l => .arr (l.map jProjectItem)) r.projects),
    ("spacefed", jOpt (jDict .bool) r.spacefed),
    ("cam", jOpt jStrList r.cam),
    ("feed", jOpt (jDict .str) r.feed),
    ("radio_show", jOpt jStrList r.radio_show),
    ("cache", jOpt (jDict id) r.cache),
    ("projects_url", jOpt .str r.projects_url),
    ("sensors", jOpt jSensors r.sensors),
    ("links", jOpt (fun l => .arr (l.map .obj)) r.links),
    ("icon", jOpt SpaceStateIcon.toJson r.icon),
    ("times", jOpt (jDict id) r.times)]

/-! ### Association-list lemmas -/

@[simp] theorem lookupJ_nil {α} (k : String) : lookupJ k ([] : List (String × α)) = none := rfl

theorem lookupJ_cons {α} (k k' : String) (v : α) (l : List (String × α)) :
    lookupJ k ((k', v) :: l) = if k' = k then some v else lookupJ k l := rfl

@[simp] theorem lookupJ_setJ_self {α} (k : String) (v : α) (l : List (String × α)) :
    lookupJ k (setJ k v l) = some v := by
  induction l with
  | nil => simp [setJ, lookupJ]
  | cons p rest ih =>
      obtain ⟨k', v'⟩ := p
      by_cases h : k' = k <;> simp [setJ, lookupJ, h, ih]

@[simp] theorem lookupJ_setJ_ne {α} {k k' : String} (h : k' ≠ k) (v : α)
    (l : List (String × α)) : lookupJ k (setJ k' v l) = lookupJ k l := by
  induction l with
  | nil => simp [setJ, lookupJ, h]
  | cons p rest ih =>
      obtain ⟨k0, v0⟩ := p
      by_cases h0 : k0 = k'
      · subst h0
        simp [setJ, lookupJ, h]
      · simp [setJ, lookupJ, h0, ih]

@[simp] theorem lookupJ_removeJ_ne {k k' : String} (h : k' ≠ k)
    (l : List (String × Json)) : lookupJ k (removeJ k' l) = lookupJ k l := by
  induction l with
  | nil => simp [removeJ]
  | cons p rest ih =>
      obtain ⟨k0, v0⟩ := p
      by_cases h0 : k0 = k'
      · subst h0
        simp only [removeJ, List.filter_cons, ne_eq, decide_not] at ih ⊢
        simp [lookupJ, h, ih]
      · simp only [removeJ, List.filter_cons, ne_eq, decide_not] at ih ⊢
        simp [lookupJ, h0, ih]

@[simp] theorem lookupJ_removeJ_self (k : String) (l : List (String × Json)) :
    lookupJ k (removeJ k l) = none := by
  induction l with
  | nil => simp [removeJ]
  | cons p rest ih =>
      obtain ⟨k0, v0⟩ := p
      by_cases h0 : k0 = k
      · subst h0
        simp only [removeJ, List.filter_cons, ne_eq, decide_not] at ih ⊢
        simp [ih]
      · simp only [removeJ, List.filter_cons, ne_eq, decide_not] at ih ⊢
        simp [lookupJ, h0, ih]

/-- `handle_api_versions` never touches keys other than `api` and
`api_compatibility`. -/
theorem lookupJ_handleApiLegacy (fs : List (String × Json)) (k : String)
    (hk1 : k ≠ "api") (hk2 : k ≠ "api_compatibility") :
    lookupJ k (handleApiLegacy fs) = lookupJ k fs := by
  have h2 : ("api_compatibility" : String) ≠ k := fun h => hk2 h.symm
  have h1 : ("api" : String) ≠ k := fun h => hk1 h.symm
  unfold handleApiLegacy
  split
  · split <;> simp [h1, h2]
  · rfl

theorem lookupJ_handleApiDefault (fs : List (String × Json)) (k : String)
    (hk2 : k ≠ "api_compatibility") :
    lookupJ k (handleApiDefault fs) = lookupJ k fs := by
  have h2 : ("api_compatibility" : String) ≠ k := fun h => hk2 h.symm
  unfold handleApiDefault
  split
  · simp [h2]
  · rfl

theorem lookupJ_handleApiVersions (fs : List (String × Json)) (k : String)
    (hk1 : k ≠ "api") (hk2 : k ≠ "api_compatibility") :
    lookupJ k (handleApiVersions fs) = lookupJ k fs := by
  rw [handleApiVersions, lookupJ_handleApiDefault _ _ hk2,
    lookupJ_handleApiLegacy _ _ hk1 hk2]

/-- After `handle_api_versions`, at least one of the version fields
reads truthy (the default branch establishes exactly this). -/
theorem handleApiVersions_truthy (fs : List (String × Json)) :
    truthy (getJ (handleApiVersions fs) "api_compatibility") = true
      ∨ truthy (getJ (handleApiVersions fs) "api") = true := by
  rw [handleApiVersions]
  generalize handleApiLegacy fs = vs1
  unfold handleApiDefault
  split
  · left
    simp [getJ, truthy]
  · next h =>
      by_cases ha : truthy (getJ vs1 "api_compatibility") = true
      · exact .inl ha
      · by_cases hb : truthy (getJ vs1 "api") = true
        · exact .inr hb
        · exfalso
          rw [Bool.not_eq_true] at ha hb
          exact h (by rw [ha, hb]; rfl)

/-! ### Inversion of `normalize` -/

/-- `fieldsErrs = []` decomposed into its 21 components. -/
theorem fieldsErrs_nil_elim {vs : List (String × Json)}
    {sens : Except (List FieldError) (Option (List (String × List SensorEntry)))}
    (h : fieldsErrs vs sens = []) :
    eOf (vApiCompat vs) = [] ∧ eOf (vApi vs) = [] ∧ eOf (vSpace vs) = [] ∧
    eOf (vLogo vs) = [] ∧ eOf (vUrl vs) = [] ∧ eOf (vLocationFld vs) = [] ∧
    eOf (vContact vs) = [] ∧ eOf (vIssueReport vs) = [] ∧ eOf (vState vs) = [] ∧
    eOf (vEvents vs) = [] ∧ eOf (vProjects vs) = [] ∧ eOf (vSpacefed vs) = [] ∧
    eOf (vCam vs) = [] ∧ eOf (vFeed vs) = [] ∧ eOf (vRadioShow vs) = [] ∧
    eOf (vCache vs) = [] ∧ eOf (vProjectsUrl vs) = [] ∧ eOf sens = [] ∧
    eOf (vLinks vs) = [] ∧ eOf (vIconFld vs) = [] ∧ eOf (vTimes vs) = [] := by
  rw [fieldsErrs] at h
  simp only [List.append_eq_nil] at h
  obtain ⟨⟨⟨⟨⟨⟨⟨⟨⟨⟨⟨⟨⟨⟨⟨⟨⟨⟨⟨⟨h1, h2⟩, h3⟩, h4⟩, h5⟩, h6⟩, h7⟩, h8⟩, h9⟩, h10⟩, h11⟩, h12⟩, h13⟩, h14⟩, h15⟩, h16⟩, h17⟩, h18⟩, h19⟩, h20⟩, h21⟩ := h
  exact ⟨h1, h2, h3, h4, h5, h6, h7, h8, h9, h10, h11, h12, h13, h14, h15,
    h16, h17, h18, h19, h20, h21⟩

theorem fieldsErrs_nil_sens {vs : List (String × Json)}
    {sens : Except (List FieldError) (Option (List (String × List SensorEntry)))}
    (h : fieldsErrs vs sens = []) : eOf sens = [] :=
  (fieldsErrs_nil_elim h).2.2.2.2.2.2.2.2.2.2.2.2.2.2.2.2.2.1

/-- `finish` succeeds exactly when no error was collected, and then
returns `build`. -/
theorem finish_ok_elim {vs : List (String × Json)}
    {sens : Except (List FieldError) (Option (List (String × List SensorEntry)))}
    {r : SpaceStatus} (h : finish vs sens = .ok r) :
    fieldsErrs vs sens = [] ∧ r = build vs sens := by
  unfold finish at h
  by_cases hc : fieldsErrs vs sens = []
  · rw [if_pos hc] at h
    exact ⟨hc, (Except.ok.injEq _ _ |>.mp h).symm⟩
  · rw [if_neg hc] at h
    exact Except.noConfusion h

/-- A successful `normalize` on an object ran the sensors cleaner
without exceptions, collected no field error, and assembled `build`. -/
theorem normalize_obj_ok {fs : List (String × Json)} {r : SpaceStatus}
    (h : normalize (.obj fs) = .ok r) :
    ∃ cleaned,
      validateSensorsPre (getJ (handleApiVersions fs) "sensors") = .ok cleaned ∧
      fieldsErrs (handleApiVersions fs) (vSensorsFld cleaned) = [] ∧
      r = build (handleApiVersions fs) (vSensorsFld cleaned) := by
  simp only [normalize] at h
  cases hs : validateSensorsPre (getJ (handleApiVersions fs) "sensors") with
  | error e =>
      rw [hs] at h
      cases e with
      | attrErr => exact Except.noConfusion h
      | typeErr =>
          obtain ⟨hnil, -⟩ := finish_ok_elim h
          have hsens := fieldsErrs_nil_sens hnil
          simp [eOf] at hsens
  | ok cleaned =>
      rw [hs] at h
      obtain ⟨hnil, hr⟩ := finish_ok_elim h
      exact ⟨cleaned, rfl, hnil, hr⟩

/-- A field validator built by `fld` that collected no error: read the
validated value off the `build` default. -/
theorem fld_extract {coe : Json → Option α} {vs : List (String × Json)} {k : String}
    (hnil : eOf (fld coe vs k) = []) (dflt : Option α) :
    optF coe vs k = some ((fld coe vs k).toOption.getD dflt) := by
  cases ho : optF coe vs k with
  | some o => simp [fld, ho, Except.toOption]
  | none => simp [fld, eOf, ho] at hnil

theorem vSpace_extract {vs : List (String × Json)}
    (hnil : eOf (vSpace vs) = []) :
    ∃ sv, lookupJ "space" vs = some sv ∧
      strCoerce sv = some ((vSpace vs).toOption.getD "") := by
  cases hl : lookupJ "space" vs with
  | none => simp [vSpace, eOf, hl] at hnil
  | some sv =>
      cases hc : strCoerce sv with
      | none => simp [vSpace, eOf, hl, hc] at hnil
      | some s => exact ⟨sv, rfl, by simp [vSpace, hl, hc, Except.toOption]⟩

theorem locErrs_nil {fs : List (String × Json)} (h : locErrs fs = []) :
    (optF strCoerce fs "address").isSome ∧ (optF latCoerce fs "lat").isSome ∧
    (optF lonCoerce fs "lon").isSome ∧ (optF strCoerce fs "timezone").isSome := by
  unfold locErrs at h
  by_cases h1 : (optF strCoerce fs "address").isNone <;>
    by_cases h2 : (optF latCoerce fs "lat").isNone <;>
      by_cases h3 : (optF lonCoerce fs "lon").isNone <;>
        by_cases h4 : (optF strCoerce fs "timezone").isNone <;>
          simp_all [Option.isNone_iff_eq_none, Option.isSome_iff_ne_none]

/-- When `locOk` fails, at least one error is recorded. -/
theorem locOk_none_locErrs {fs : List (String × Json)} (h : locOk fs = none) :
    locErrs fs ≠ [] := by
  intro hnil
  obtain ⟨h1, h2, h3, h4⟩ := locErrs_nil hnil
  obtain ⟨a1, e1⟩ := Option.isSome_iff_exists.mp h1
  obtain ⟨a2, e2⟩ := Option.isSome_iff_exists.mp h2
  obtain ⟨a3, e3⟩ := Option.isSome_iff_exists.mp h3
  obtain ⟨a4, e4⟩ := Option.isSome_iff_exists.mp h4
  rw [locOk, e1, e2, e3, e4] at h
  simp at h

theorem vLocationFld_extract {vs : List (String × Json)}
    (hnil : eOf (vLocationFld vs) = []) :
    vLocationFld vs = .ok ((vLocationFld vs).toOption.getD none) := by
  cases hl : lookupJ "location" vs with
  | none => simp [vLocationFld, hl, Except.toOption]
  | some v =>
      cases v with
      | null => simp [vLocationFld, hl, Except.toOption]
      | obj lfs =>
          cases ho : locOk lfs with
          | some l => simp [vLocationFld, vLocation, hl, ho, Except.toOption]
          | none =>
              exfalso
              have hne := locOk_none_locErrs ho
              cases he : locErrs lfs with
              | nil => exact hne he
              | cons a as => simp [vLocationFld, vLocation, hl, ho, he, eOf] at hnil
      | bool b => simp [vLocationFld, vLocation, hl, eOf] at hnil
      | int n => simp [vLocationFld, vLocation, hl, eOf] at hnil
      | float q => simp [vLocationFld, vLocation, hl, eOf] at hnil
      | arr xs => simp [vLocationFld, vLocation, hl, eOf] at hnil
      | str s => simp [vLocationFld, vLocation, hl, eOf] at hnil

theorem vSensorsFld_extract {cleaned : Json}
    (hnil : eOf (vSensorsFld cleaned) = []) :
    optVal (dictCoerce (listCoerce sensorEntryCoerce)) cleaned =
      some ((vSensorsFld cleaned).toOption.getD none) := by
  cases ho : optVal (dictCoerce (listCoerce sensorEntryCoerce)) cleaned with
  | some o => simp [vSensorsFld, ho, Except.toOption]
  | none => simp [vSensorsFld, eOf, ho] at hnil

/-- All 21 validated field values of a successful `normalize`, read off
the resulting record. -/
theorem normalize_fields {fs : List (String × Json)} {r : SpaceStatus}
    (h : normalize (.obj fs) = .ok r) :
    optF strListCoerce (handleApiVersions fs) "api_compatibility" = some r.api_compatibility ∧
    optF strCoerce (handleApiVersions fs) "api" = some r.api ∧
    (∃ sv, lookupJ "space" (handleApiVersions fs) = some sv ∧
      strCoerce sv = some r.space) ∧
    optF urlCoerce (handleApiVersions fs) "logo" = some r.logo ∧
    optF urlCoerce (handleApiVersions fs) "url" = some r.url ∧
    vLocationFld (handleApiVersions fs) = .ok r.location ∧
    optF contactCoerce (handleApiVersions fs) "contact" = some r.contact ∧
    optF strListCoerce (handleApiVersions fs) "issue_report_channels" = some r.issue_report_channels ∧
    optF stateCoerce (handleApiVersions fs) "state" = some r.state ∧
    optF (listCoerce eventCoerce) (handleApiVersions fs) "events" = some r.events ∧
    optF (listCoerce projectItemCoerce) (handleApiVersions fs) "projects" = some r.projects ∧
    optF (dictCoerce boolCoerce) (handleApiVersions fs) "spacefed" = some r.spacefed ∧
    optF (listCoerce urlCoerce) (handleApiVersions fs) "cam" = some r.cam ∧
    optF (dictCoerce urlCoerce) (handleApiVersions fs) "feed" = some r.feed ∧
    optF (listCoerce urlCoerce) (handleApiVersions fs) "radio_show" = some r.radio_show ∧
    optF (dictCoerce some) (handleApiVersions fs) "cache" = some r.cache ∧
    optF urlCoerce (handleApiVersions fs) "projects_url" = some r.projects_url ∧
    (∃ cleaned, validateSensorsPre (getJ (handleApiVersions fs) "sensors") = .ok cleaned ∧
      optVal (dictCoerce (listCoerce sensorEntryCoerce)) cleaned = some r.sensors) ∧
    optF (listCoerce objCoerce) (handleApiVersions fs) "links" = some r.links ∧
    optF iconCoerce (handleApiVersions fs) "icon" = some r.icon ∧
    optF (dictCoerce some) (handleApiVersions fs) "times" = some r.times := by
  obtain ⟨cleaned, hs, hnil, hr⟩ := normalize_obj_ok h
  obtain ⟨e1, e2, e3, e4, e5, e6, e7, e8, e9, e10, e11, e12, e13, e14, e15,
    e16, e17, e18, e19, e20, e21⟩ := fieldsErrs_nil_elim hnil
  subst hr
  refine ⟨fld_extract e1 none, fld_extract e2 none, vSpace_extract e3,
    fld_extract e4 none, fld_extract e5 none, vLocationFld_extract e6,
    fld_extract e7 none, fld_extract e8 none, fld_extract e9 none,
    fld_extract e10 none, fld_extract e11 none, fld_extract e12 none,
    fld_extract e13 none, fld_extract e14 none, fld_extract e15 none,
    fld_extract e16 none, fld_extract e17 none,
    ⟨cleaned, hs, vSensorsFld_extract e18⟩,
    fld_extract e19 none, fld_extract e20 none, fld_extract e21 none⟩

/-! ### Decimal representations are never empty -/

theorem toDigitsCore_length_le (b fuel n : Nat) (ds : List Char) :
    ds.length ≤ (Nat.toDigitsCore b fuel n ds).length := by
  induction fuel generalizing n ds with
  | zero => exact Nat.le_refl _
  | succ fuel ih =>
      rw [Nat.toDigitsCore]
      split
      · exact Nat.le_succ _
      · refine Nat.le_trans ?_ (ih (n / b) ((n % b).digitChar :: ds))
        exact Nat.le_succ _

theorem natRepr_ne_empty (n : Nat) : Nat.repr n ≠ "" := by
  intro h
  have hlen : (Nat.repr n).length = 0 := by rw [h]; rfl
  rw [Nat.repr] at hlen
  have : 1 ≤ (Nat.toDigits 10 n).length := by
    rw [Nat.toDigits, Nat.toDigitsCore]
    split
    · exact Nat.le_refl _
    · simpa using toDigitsCore_length_le 10 n (n / 10) [(n % 10).digitChar]
  rw [show (Nat.toDigits 10 n).asString.length = (Nat.toDigits 10 n).length from rfl]
    at hlen
  omega

theorem toString_int_ne_empty (n : Int) : toString n ≠ "" := by
  cases n with
  | ofNat m => exact natRepr_ne_empty m
  | negSucc m =>
      intro h
      have hlen : (toString (Int.negSucc m)).length = 0 := by rw [h]; rfl
      rw [show toString (Int.negSucc m) = "-" ++ toString (m + 1) from rfl,
        String.length_append] at hlen
      have hone : ("-" : String).length = 1 := rfl
      omega

/-- A successful `mapMO` preserves length. -/
theorem mapMO_some_length {α β} {f : α → Option β} :
    ∀ {xs : List α} {l : List β}, mapMO f xs = some l → l.length = xs.length := by
  intro xs
  induction xs with
  | nil =>
      intro l h
      cases h
      rfl
  | cons x xs ih =>
      intro l h
      rw [mapMO] at h
      cases hf : f x with
      | none => rw [hf] at h; exact Option.noConfusion h
      | some b =>
          rw [hf] at h
          cases hr : mapMO f xs with
          | none => rw [hr] at h; exact Option.noConfusion h
          | some bs =>
              rw [hr] at h
              cases h
              simp [ih hr]

/-! ### The batch fetch (claim C9) -/

theorem lookupJ_batch (responses : String → HttpResult) (order : List String)
    (acc : List (String × Option SpaceStatus)) (u : String) :
    lookupJ u (order.foldl
      (fun acc2 u2 => setJ u2 (getSpaceStatus (responses u2)) acc2) acc) =
      if u ∈ order then some (getSpaceStatus (responses u)) else lookupJ u acc := by
  induction order generalizing acc with
  | nil => simp
  | cons v rest ih =>
      simp only [List.foldl_cons]
      rw [ih]
      by_cases hv : u = v
      · subst hv
        by_cases hmem : u ∈ rest <;> simp [hmem, lookupJ_setJ_self]
      · have hv2 : v ≠ u := Ne.symm hv
        by_cases hmem : u ∈ rest <;> simp [hmem, hv, lookupJ_setJ_ne hv2]

theorem setJ_map_fst {α} (k : String) (v : α) (l : List (String × α)) :
    (setJ k v l).map Prod.fst =
      if k ∈ l.map Prod.fst then l.map Prod.fst else l.map Prod.fst ++ [k] := by
  induction l with
  | nil => simp [setJ]
  | cons p rest ih =>
      obtain ⟨k0, v0⟩ := p
      by_cases h0 : k0 = k
      · subst h0
        simp [setJ]
      · have h0s : ¬ k = k0 := fun h => h0 h.symm
        by_cases hm : k ∈ rest.map Prod.fst <;>
          simp [setJ, h0, h0s, hm, ih]

theorem setJ_nodup {α} (k : String) (v : α) {l : List (String × α)}
    (h : (l.map Prod.fst).Nodup) : ((setJ k v l).map Prod.fst).Nodup := by
  rw [setJ_map_fst]
  by_cases hm : k ∈ l.map Prod.fst
  · simpa [hm] using h
  · simp [hm, List.nodup_append, h]

theorem batch_nodup (responses : String → HttpResult) (order : List String)
    (acc : List (String × Option SpaceStatus)) (hacc : (acc.map Prod.fst).Nodup) :
    ((order.foldl (fun acc2 u2 => setJ u2 (getSpaceStatus (responses u2)) acc2)
      acc).map Prod.fst).Nodup := by
  induction order generalizing acc with
  | nil => exact hacc
  | cons v rest ih => exact ih _ (setJ_nodup _ _ hacc)

/-- C9: for every set of endpoint urls, in whatever completion order
the futures finish, the result dict maps each submitted url — and only
those — to the outcome of its own fetch (`some record` on success,
`none` for any surfaced failure, never an uncaught exception), with
exactly one entry per url; one endpoint's outcome cannot disturb
another's entry, since each entry is a function of that url's own
response alone. -/
theorem c9_batch_results (urls : List String) (responses : String → HttpResult)
    (order : List String) (hperm : order.Perm urls) :
    (∀ u, lookupJ u (getMultipleSpaceStatuses responses order) =
      if u ∈ urls then some (getSpaceStatus (responses u)) else none) ∧
    ((getMultipleSpaceStatuses responses order).map Prod.fst).Nodup ∧
    (∀ u ∈ urls, ∀ j e, responses u = .json j → normalize j = .error e →
      lookupJ u (getMultipleSpaceStatuses responses order) = some none) := by
  have hmain : ∀ u, lookupJ u (getMultipleSpaceStatuses responses order) =
      if u ∈ urls then some (getSpaceStatus (responses u)) else none := by
    intro u
    rw [getMultipleSpaceStatuses, lookupJ_batch]
    simp [hperm.mem_iff]
  refine ⟨hmain, batch_nodup responses order [] (by simp), ?_⟩
  intro u hu j e hj he
  rw [hmain u, if_pos hu, hj, getSpaceStatus, he]

/-- C9 witness: two endpoints, both failing at the transport level,
completing in reversed order: both entries are present and hold `none`,
and an unsubmitted url has no entry. -/
theorem c9_batch_results_witness :
    lookupJ "a" (getMultipleSpaceStatuses (fun _ => .transportError) ["b", "a"]) =
      some none ∧
    lookupJ "c" (getMultipleSpaceStatuses (fun _ => .transportError) ["b", "a"]) =
      none := by
  have h := (c9_batch_results ["a", "b"] (fun _ => .transportError) ["b", "a"]
    (List.Perm.swap "a" "b" [])).1
  constructor
  · have ha := h "a"
    simpa using ha
  · have hc := h "c"
    simpa using hc

/-! ### The directory mapper (claim C2) -/

/-- Modelled from the spec (for comparison only): the count of
directory entries whose value parses as an absolute url, which the spec
asserts equals the size of the returned mapping. -/
def specValidUrlCount (data : List (String × String)) : Nat :=
  (data.filter (fun p => isHttpUrl p.2)).length

/-- C2 counterexample: on `{"A": "not-a-url"}` the claim predicts a
successful parse of size 0 (the sole entry's value is not an absolute
url, so it should be dropped); `from_dict` instead raises —
`HttpUrl(url)` calls `AnyUrl.__init__` without its required
keyword-only `scheme` argument, a `TypeError` that `get_directory`
does not catch — and no mapping is produced at all. -/
theorem c2_directory_counterexample :
    SpaceDirectory.from_dict [("A", "not-a-url")] = .error () ∧
    specValidUrlCount [("A", "not-a-url")] = 0 := by
  refine ⟨rfl, ?_⟩
  rfl

/-- C2 amended: no entry is ever individually dropped — `from_dict`
succeeds only on the empty document, returning the empty mapping, and
raises an uncaught `TypeError` on every document with at least one
entry, because `HttpUrl(url)` never passes the keyword-only `scheme`
argument that `AnyUrl.__init__` requires. -/
theorem c2_directory_amended (data : List (String × String)) :
    SpaceDirectory.from_dict data =
      match data with
      | [] => .ok ⟨[]⟩
      | _ :: _ => .error () := by
  cases data with
  | nil => rfl
  | cons p rest =>
      obtain ⟨name, url⟩ := p
      rfl

/-! ### The version-aliasing claims (C4, C5, C10) -/

/-- With a truthy legacy `api` string and no `api_compatibility` key,
`handle_api_versions` pops `api` and installs the one-element list. -/
theorem hAV_with_truthy_api {fs : List (String × Json)} {X : String}
    (hapi : lookupJ "api" fs = some (.str X)) (hX : X ≠ "")
    (hcompat : lookupJ "api_compatibility" fs = none) :
    handleApiVersions fs =
      setJ "api_compatibility" (.arr [.str X]) (removeJ "api" fs) := by
  have h1 : hasKey "api" fs = true := by simp [hasKey, hapi]
  have h2 : hasKey "api_compatibility" fs = false := by simp [hasKey, hcompat]
  have h3 : getJ fs "api" = .str X := by simp [getJ, hapi]
  have htr : truthy (Json.str X) = true := by simp [truthy, hX]
  have hleg : handleApiLegacy fs =
      setJ "api_compatibility" (.arr [.str X]) (removeJ "api" fs) := by
    rw [handleApiLegacy, h1, h2, h3, htr]
    simp
  rw [handleApiVersions, hleg, handleApiDefault]
  simp only [getJ, lookupJ_setJ_self, Option.getD_some]
  simp [truthy]

/-- With neither version field present, `handle_api_versions` installs
the `["14"]` default. -/
theorem hAV_neither {fs : List (String × Json)}
    (hapi : lookupJ "api" fs = none)
    (hcompat : lookupJ "api_compatibility" fs = none) :
    handleApiVersions fs = setJ "api_compatibility" (.arr [.str "14"]) fs := by
  have h1 : hasKey "api" fs = false := by simp [hasKey, hapi]
  have hleg : handleApiLegacy fs = fs := by
    rw [handleApiLegacy, h1]
    simp
  rw [handleApiVersions, hleg, handleApiDefault]
  have g1 : getJ fs "api_compatibility" = .null := by simp [getJ, hcompat]
  have g2 : getJ fs "api" = .null := by simp [getJ, hapi]
  rw [g1, g2]
  simp [truthy]

/-- C10: when a document carries a non-empty legacy `api` string and no
`api_compatibility` key, the normalized record's own `api` field is
`None` — the value was popped during aliasing — and it survives only as
the single entry of `api_compatibility`. -/
theorem c10_legacy_api_removed (fs : List (String × Json)) (X : String)
    (r : SpaceStatus) (hapi : lookupJ "api" fs = some (.str X)) (hX : X ≠ "")
    (hcompat : lookupJ "api_compatibility" fs = none)
    (hok : normalize (.obj fs) = .ok r) :
    r.api = none ∧ r.api_compatibility = some [X] := by
  have hv := hAV_with_truthy_api hapi hX hcompat
  obtain ⟨hc, ha, -⟩ := normalize_fields hok
  rw [hv] at hc ha
  constructor
  · rw [optF, getJ, lookupJ_setJ_ne (by decide), lookupJ_removeJ_self] at ha
    have : optVal strCoerce Json.null = some none := rfl
    rw [show ((none : Option Json).getD .null) = Json.null from rfl, this] at ha
    exact (Option.some.injEq _ _ |>.mp ha).symm
  · rw [optF, getJ, lookupJ_setJ_self] at hc
    have : optVal strListCoerce (.arr [.str X]) = some (some [X]) := rfl
    rw [show ((some (Json.arr [.str X])).getD .null) = Json.arr [.str X] from rfl,
      this] at hc
    exact (Option.some.injEq _ _ |>.mp hc).symm

/-- C10 witness at `{"space": "Foo", "api": "0.13"}`. -/
theorem c10_legacy_api_removed_witness :
    ∃ r : SpaceStatus,
      normalize (.obj [("space", .str "Foo"), ("api", .str "0.13")]) = .ok r ∧
      r.api = none ∧ r.api_compatibility = some ["0.13"] := by
  refine ⟨⟨some ["0.13"], none, "Foo", none, none, none, none, none, none, none,
    none, none, none, none, none, none, none, none, none, none, none⟩, rfl, ?_⟩
  exact c10_legacy_api_removed [("space", .str "Foo"), ("api", .str "0.13")]
    "0.13" _ rfl (by decide) rfl rfl

/-- C4 amended: a document with a non-empty legacy `api` string `X` and
no `api_compatibility` key normalizes with `api_compatibility == [X]`;
with neither field it normalizes with `api_compatibility == ["14"]`.
(The non-emptiness condition on `X` is forced: an empty legacy `api` is
falsy, so it is popped but not wrapped, and the `["14"]` default
applies instead.) -/
theorem c4_api_aliasing :
    (∀ (fs : List (String × Json)) (X : String) (r : SpaceStatus),
      lookupJ "api" fs = some (.str X) → X ≠ "" →
      lookupJ "api_compatibility" fs = none →
      normalize (.obj fs) = .ok r → r.api_compatibility = some [X]) ∧
    (∀ (fs : List (String × Json)) (r : SpaceStatus),
      lookupJ "api" fs = none → lookupJ "api_compatibility" fs = none →
      normalize (.obj fs) = .ok r → r.api_compatibility = some ["14"]) := by
  constructor
  · intro fs X r hapi hX hcompat hok
    have hv := hAV_with_truthy_api hapi hX hcompat
    obtain ⟨hc, -⟩ := normalize_fields hok
    rw [hv, optF, getJ, lookupJ_setJ_self] at hc
    have he : optVal strListCoerce (.arr [.str X]) = some (some [X]) := rfl
    rw [show ((some (Json.arr [.str X])).getD .null) = Json.arr [.str X] from rfl,
      he] at hc
    exact (Option.some.injEq _ _ |>.mp hc).symm
  · intro fs r hapi hcompat hok
    have hv := hAV_neither hapi hcompat
    obtain ⟨hc, -⟩ := normalize_fields hok
    rw [hv, optF, getJ, lookupJ_setJ_self] at hc
    have he : optVal strListCoerce (.arr [.str "14"]) = some (some ["14"]) := rfl
    rw [show ((some (Json.arr [.str "14"])).getD .null) = Json.arr [.str "14"] from rfl,
      he] at hc
    exact (Option.some.injEq _ _ |>.mp hc).symm

/-- C4 counterexample: at `X = ""` the claim predicts
`apiVersions == [""]`, but an empty legacy `api` is falsy — it is
popped without being wrapped and the default fires, so the record
carries `["14"]`, not `[""]`. -/
theorem c4_api_aliasing_counterexample :
    normalize (.obj [("space", .str "Foo"), ("api", .str "")]) =
      .ok ⟨some ["14"], none, "Foo", none, none, none, none, none, none, none,
        none, none, none, none, none, none, none, none, none, none, none⟩ ∧
    (["14"] : List String) ≠ [""] :=
  ⟨rfl, by decide⟩

/-- C4 witness at `{"space": "Foo", "api": "0.13"}` and
`{"space": "Foo"}`. -/
theorem c4_api_aliasing_witness :
    ∃ r1 r2 : SpaceStatus,
      normalize (.obj [("space", .str "Foo"), ("api", .str "0.13")]) = .ok r1 ∧
      r1.api_compatibility = some ["0.13"] ∧
      normalize (.obj [("space", .str "Foo")]) = .ok r2 ∧
      r2.api_compatibility = some ["14"] := by
  refine ⟨⟨some ["0.13"], none, "Foo", none, none, none, none, none, none, none,
    none, none, none, none, none, none, none, none, none, none, none⟩,
    ⟨some ["14"], none, "Foo", none, none, none, none, none, none, none,
    none, none, none, none, none, none, none, none, none, none, none⟩,
    rfl, ?_, rfl, ?_⟩
  · exact c4_api_aliasing.1 [("space", .str "Foo"), ("api", .str "0.13")]
      "0.13" _ rfl (by decide) rfl rfl
  · exact c4_api_aliasing.2 [("space", .str "Foo")] _ rfl rfl rfl

/-- Every successful normalization leaves at least one version field
populated (shared helper; see the C5 theorem). -/
theorem version_field_present (j : Json) (r : SpaceStatus)
    (hok : normalize j = .ok r) :
    (∃ l, r.api_compatibility = some l ∧ l ≠ []) ∨
    (∃ s, r.api = some s ∧ s ≠ "") := by
  cases j with
  | obj fs =>
      obtain ⟨hc, ha, -⟩ := normalize_fields hok
      rcases handleApiVersions_truthy fs with htr | htr
      · left
        rw [optF] at hc
        cases hl : lookupJ "api_compatibility" (handleApiVersions fs) with
        | none =>
            rw [getJ, hl] at htr
            simp [truthy] at htr
        | some v =>
            have hgv : getJ (handleApiVersions fs) "api_compatibility" = v := by
              simp [getJ, hl]
            rw [hgv] at htr hc
            cases v with
            | arr xs =>
                cases hm : mapMO strCoerce xs with
                | none => simp [optVal, strListCoerce, listCoerce, hm] at hc
                | some l =>
                    have hrc : r.api_compatibility = some l := by
                      simp [optVal, strListCoerce, listCoerce, hm] at hc
                      exact hc.symm
                    refine ⟨l, hrc, ?_⟩
                    have hxs : xs ≠ [] := by
                      simp [truthy, List.isEmpty_iff] at htr
                      exact htr
                    have hlen := mapMO_some_length hm
                    intro hle
                    rw [hle] at hlen
                    exact hxs (List.length_eq_zero.mp hlen.symm)
            | null => simp [truthy] at htr
            | bool b => simp [optVal, strListCoerce, listCoerce] at hc
            | int n => simp [optVal, strListCoerce, listCoerce] at hc
            | float q => simp [optVal, strListCoerce, listCoerce] at hc
            | str s => simp [optVal, strListCoerce, listCoerce] at hc
            | obj ofs => simp [optVal, strListCoerce, listCoerce] at hc
      · right
        rw [optF] at ha
        cases hl : lookupJ "api" (handleApiVersions fs) with
        | none =>
            rw [getJ, hl] at htr
            simp [truthy] at htr
        | some v =>
            have hgv : getJ (handleApiVersions fs) "api" = v := by
              simp [getJ, hl]
            rw [hgv] at htr ha
            cases v with
            | str s =>
                refine ⟨s, ?_, ?_⟩
                · simp [optVal, strCoerce] at ha
                  exact ha.symm
                · simpa [truthy] using htr
            | bool b =>
                have hb : b = true := by simpa [truthy] using htr
                subst hb
                refine ⟨"True", ?_, by decide⟩
                simp [optVal, strCoerce] at ha
                exact ha.symm
            | int n =>
                refine ⟨toString n, ?_, toString_int_ne_empty n⟩
                simp [optVal, strCoerce] at ha
                exact ha.symm
            | null => simp [truthy] at htr
            | float q => simp [optVal, strCoerce] at ha
            | arr xs => simp [optVal, strCoerce] at ha
            | obj ofs => simp [optVal, strCoerce] at ha
  | null => simp [normalize] at hok
  | bool b => simp [normalize] at hok
  | int n => simp [normalize] at hok
  | float q => simp [normalize] at hok
  | str s => simp [normalize] at hok
  | arr xs => simp [normalize] at hok

/-- C5 amended: a successful normalization always leaves at least one
version field populated — either `api_compatibility` is a non-empty
list, or (only reachable when a truthy legacy `api` coexists with an
explicitly-present falsy `api_compatibility`) the `api` field itself
holds a non-empty string.  `api_compatibility` alone can be the empty
list, so the claim as stated fails. -/
theorem c5_version_invariant (j : Json) (r : SpaceStatus)
    (hok : normalize j = .ok r) :
    (∃ l, r.api_compatibility = some l ∧ l ≠ []) ∨
    (∃ s, r.api = some s ∧ s ≠ "") :=
  version_field_present j r hok

/-- C5 counterexample: `{"space": "x", "api": "13", "api_compatibility": []}`
normalizes successfully with an empty `api_compatibility` — the legacy
branch is skipped because the `api_compatibility` key is present, and
the default branch is skipped because `api` is truthy — refuting the
claim that the list is non-empty in every successful record. -/
theorem c5_version_invariant_counterexample :
    normalize (.obj [("space", .str "x"), ("api", .str "13"),
      ("api_compatibility", .arr [])]) =
      .ok ⟨some [], some "13", "x", none, none, none, none, none, none, none,
        none, none, none, none, none, none, none, none, none, none, none⟩ :=
  rfl

/-- C5 witness at `{"space": "Foo"}`. -/
theorem c5_version_invariant_witness :
    (∃ l, (⟨some ["14"], none, "Foo", none, none, none, none, none, none, none,
      none, none, none, none, none, none, none, none, none, none,
      none⟩ : SpaceStatus).api_compatibility = some l ∧ l ≠ []) ∨
    (∃ s, (⟨some ["14"], none, "Foo", none, none, none, none, none, none, none,
      none, none, none, none, none, none, none, none, none, none,
      none⟩ : SpaceStatus).api = some s ∧ s ≠ "") :=
  c5_version_invariant (.obj [("space", .str "Foo")]) _ rfl

/-! ### Failure propagation (claims C3, C1) -/

/-- If every way of filling the sensors slot leaves the collected
errors nonempty, `normalize` fails. -/
theorem normalize_not_ok_of_errs {fs : List (String × Json)}
    (h : ∀ sens, fieldsErrs (handleApiVersions fs) sens ≠ []) :
    ∃ f, normalize (.obj fs) = .error f := by
  simp only [normalize]
  split
  · exact ⟨_, rfl⟩
  · rw [finish, if_neg (h _)]
    exact ⟨_, rfl⟩
  · rw [finish, if_neg (h _)]
    exact ⟨_, rfl⟩

/-- A `ValidationError` out of `normalize` carries exactly the
collected field errors. -/
theorem normalize_invalid_errs {fs : List (String × Json)} {errs : List FieldError}
    (h : normalize (.obj fs) = .error (.invalid errs)) :
    ∃ sens, errs = fieldsErrs (handleApiVersions fs) sens := by
  simp only [normalize] at h
  split at h
  · exact absurd h (by simp)
  · rw [finish] at h
    split at h
    · exact absurd h (by simp)
    · simp only [Except.error.injEq, NormFailure.invalid.injEq] at h
      exact ⟨_, h.symm⟩
  · rw [finish] at h
    split at h
    · exact absurd h (by simp)
    · simp only [Except.error.injEq, NormFailure.invalid.injEq] at h
      exact ⟨_, h.symm⟩

/-- A missing `space` key puts `field required` among the collected
errors, whatever the sensors slot holds. -/
theorem space_missing_mem_fieldsErrs {vs : List (String × Json)}
    {sens : Except (List FieldError) (Option (List (String × List SensorEntry)))}
    (hsp : lookupJ "space" vs = none) :
    FieldError.mk ["space"] .missing ∈ fieldsErrs vs sens := by
  have hv : eOf (vSpace vs) = [⟨["space"], .missing⟩] := by
    simp [vSpace, hsp, eOf]
  simp [fieldsErrs, hv]

/-- C3 amended: a document with no `space` field always fails to
normalize, and whenever the failure is a `ValidationError` the missing
`space` is among its reported errors (a malformed `sensors` value can
instead abort with an uncaught exception); but `space` is not checked
for non-emptiness: `{"space": ""}` normalizes successfully and the
record's `spaceName` is the empty string. -/
theorem c3_space_required :
    (∀ fs : List (String × Json), lookupJ "space" fs = none →
      (∃ e, normalize (.obj fs) = .error e) ∧
      (∀ errs, normalize (.obj fs) = .error (.invalid errs) →
        FieldError.mk ["space"] .missing ∈ errs)) ∧
    (∃ r : SpaceStatus, normalize (.obj [("space", .str "")]) = .ok r ∧
      r.space = "") := by
  constructor
  · intro fs hsp
    have hsp2 : lookupJ "space" (handleApiVersions fs) = none := by
      rw [lookupJ_handleApiVersions fs "space" (by decide) (by decide)]
      exact hsp
    have hv : eOf (vSpace (handleApiVersions fs)) = [⟨["space"], .missing⟩] := by
      simp [vSpace, hsp2, eOf]
    have hne : ∀ sens, fieldsErrs (handleApiVersions fs) sens ≠ [] := by
      intro sens hnil
      have hzero := (fieldsErrs_nil_elim hnil).2.2.1
      rw [hv] at hzero
      exact List.noConfusion hzero
    refine ⟨normalize_not_ok_of_errs hne, ?_⟩
    intro errs herr
    obtain ⟨sens, hsens⟩ := normalize_invalid_errs herr
    rw [hsens]
    exact space_missing_mem_fieldsErrs hsp2
  · exact ⟨⟨some ["14"], none, "", none, none, none, none, none, none, none,
      none, none, none, none, none, none, none, none, none, none, none⟩,
      rfl, rfl⟩

/-- C3 witness: the empty document (no `space`) fails, with the
missing `space` reported. -/
theorem c3_space_required_witness :
    (∃ e, normalize (.obj []) = .error e) ∧
    normalize (.obj []) = .error (.invalid [⟨["space"], .missing⟩]) := by
  refine ⟨(c3_space_required.1 [] rfl).1, rfl⟩

/-- C3 counterexample: the claim requires a non-empty `space` string
for success and asserts `spaceName` is never empty; the code accepts
`""` (pydantic's `str` has no minimum length), yielding a record whose
`spaceName` is empty. -/
theorem c3_space_required_counterexample :
    normalize (.obj [("space", .str "")]) =
      .ok ⟨some ["14"], none, "", none, none, none, none, none, none, none,
        none, none, none, none, none, none, none, none, none, none, none⟩ :=
  rfl

/-- C1 amended: a field that fails its type or range constraint is not
dropped — it fails the whole normalization.  In particular an
out-of-range `latitude` or `longitude` in the `location` sub-object
makes `normalize` fail outright (only values handled by the dedicated
cleaning validators — negative `lastchange`, `null` sensor readings —
degrade to absence). -/
theorem c1_out_of_range_coordinates (fs lfs : List (String × Json)) (q : Rat)
    (hloc : lookupJ "location" fs = some (.obj lfs)) :
    (lookupJ "lat" lfs = some (.float q) → (q < -90 ∨ 90 < q) →
      ∃ f, normalize (.obj fs) = .error f) ∧
    (lookupJ "lon" lfs = some (.float q) → (q < -180 ∨ 180 < q) →
      ∃ f, normalize (.obj fs) = .error f) := by
  have hloc2 : lookupJ "location" (handleApiVersions fs) = some (.obj lfs) := by
    rw [lookupJ_handleApiVersions fs "location" (by decide) (by decide)]
    exact hloc
  constructor
  · intro hlat hq
    have hco : latCoerce (.float q) = none := by
      rw [latCoerce]
      simp only [floatCoerce]
      rw [if_neg]
      rintro ⟨h1, h2⟩
      rcases hq with h | h <;> linarith
    have hlatF : optF latCoerce lfs "lat" = none := by
      rw [optF, getJ, hlat]
      simp [optVal, hco]
    have hlocOk : locOk lfs = none := by
      rw [locOk]
      cases haddr : optF strCoerce lfs "address" <;> simp [haddr, hlatF]
    have hfld : vLocationFld (handleApiVersions fs) =
        .error ((locErrs lfs).map (fun e => ⟨"location" :: e.loc, e.kind⟩)) := by
      simp [vLocationFld, hloc2, vLocation, hlocOk]
    have hne : eOf (vLocationFld (handleApiVersions fs)) ≠ [] := by
      rw [hfld]
      simpa [eOf, List.map_eq_nil_iff] using locOk_none_locErrs hlocOk
    exact normalize_not_ok_of_errs
      (fun sens hnil => hne (fieldsErrs_nil_elim hnil).2.2.2.2.2.1)
  · intro hlon hq
    have hco : lonCoerce (.float q) = none := by
      rw [lonCoerce]
      simp only [floatCoerce]
      rw [if_neg]
      rintro ⟨h1, h2⟩
      rcases hq with h | h <;> linarith
    have hlonF : optF lonCoerce lfs "lon" = none := by
      rw [optF, getJ, hlon]
      simp [optVal, hco]
    have hlocOk : locOk lfs = none := by
      rw [locOk]
      cases haddr : optF strCoerce lfs "address" <;>
        cases hlat2 : optF latCoerce lfs "lat" <;>
          simp [haddr, hlat2, hlonF]
    have hfld : vLocationFld (handleApiVersions fs) =
        .error ((locErrs lfs).map (fun e => ⟨"location" :: e.loc, e.kind⟩)) := by
      simp [vLocationFld, hloc2, vLocation, hlocOk]
    have hne : eOf (vLocationFld (handleApiVersions fs)) ≠ [] := by
      rw [hfld]
      simpa [eOf, List.map_eq_nil_iff] using locOk_none_locErrs hlocOk
    exact normalize_not_ok_of_errs
      (fun sens hnil => hne (fieldsErrs_nil_elim hnil).2.2.2.2.2.1)

/-- C1 witness: `{"space": "X", "location": {"lat": 200.0}}` fails. -/
theorem c1_out_of_range_coordinates_witness :
    ∃ f, normalize (.obj [("space", .str "X"),
      ("location", .obj [("lat", .float 200)])]) = .error f :=
  (c1_out_of_range_coordinates [("space", .str "X"),
      ("location", .obj [("lat", .float 200)])]
    [("lat", .float 200)] 200 rfl).1 rfl (by norm_num)

/-- C1 counterexample: the claim says an out-of-range latitude
invalidates only the `location` sub-object while the rest of the record
normalizes successfully; the code collects the range violation into a
`ValidationError` for the whole document — `normalize` fails, no record
is produced. -/
theorem c1_out_of_range_coordinates_counterexample :
    normalize (.obj [("space", .str "X"),
      ("location", .obj [("lat", .float 200)])]) =
      .error (.invalid [⟨["location", "lat"], .invalid⟩]) :=
  rfl

/-! ### Timestamp coercion (claim C6) -/

/-- Inversion of one `Option` bind. -/
theorem bind_some_elim {α β} {x : Option α} {f : α → Option β} {b : β}
    (h : x.bind f = some b) : ∃ a, x = some a ∧ f a = some b := by
  cases hx : x with
  | none => rw [hx] at h; exact Option.noConfusion h
  | some a => rw [hx] at h; exact ⟨a, rfl, h⟩

theorem lastchangeF_float {sfs : List (String × Json)} {q : Rat}
    (hq : lookupJ "lastchange" sfs = some (.float q)) :
    lastchangeF sfs =
      if pyTrunc q < 0 then some none else some (some (.inl (pyTrunc q))) := by
  by_cases hneg : pyTrunc q < 0 <;>
    simp [lastchangeF, lastchangeVal, hq, validateTimestamp, hneg, intCoerce]

theorem lastchangeF_int {sfs : List (String × Json)} {n : Int}
    (hn : lookupJ "lastchange" sfs = some (.int n)) :
    lastchangeF sfs = if n < 0 then some none else some (some (.inl n)) := by
  by_cases hneg : n < 0 <;>
    simp [lastchangeF, lastchangeVal, hn, validateTimestamp, hneg, intCoerce]

/-- A validated `SpaceState` holds exactly what `lastchangeF` read. -/
theorem stateCoerce_lastchange {sfs : List (String × Json)} {st : SpaceState}
    (h : stateCoerce (.obj sfs) = some st) :
    lastchangeF sfs = some st.lastchange := by
  simp only [stateCoerce] at h
  obtain ⟨o1, ho1, h⟩ := bind_some_elim h
  obtain ⟨l1, hl1, h⟩ := bind_some_elim h
  obtain ⟨t1, ht1, h⟩ := bind_some_elim h
  obtain ⟨m1, hm1, h⟩ := bind_some_elim h
  obtain ⟨i1, hi1, h⟩ := bind_some_elim h
  have h2 : SpaceState.mk o1 l1 t1 m1 i1 = st := by simpa using h
  rw [← h2]
  exact hl1

/-- C6 amended: the `lastchange` pre-validator truncates a float
toward zero first and only then treats a (still-)negative value as
absent.  So `-5` becomes absent, any float truncates, and — against the
claim's plain reading — a negative fractional value in `(-1, 0)`
truncates to `0` and is kept rather than treated as absent. -/
theorem c6_timestamp_coercion (fs sfs : List (String × Json)) (r : SpaceStatus)
    (hstate : lookupJ "state" fs = some (.obj sfs))
    (hok : normalize (.obj fs) = .ok r) :
    (∀ q : Rat, lookupJ "lastchange" sfs = some (.float q) →
      ∃ st, r.state = some st ∧
        st.lastchange = if pyTrunc q < 0 then none else some (.inl (pyTrunc q))) ∧
    (∀ n : Int, lookupJ "lastchange" sfs = some (.int n) →
      ∃ st, r.state = some st ∧
        st.lastchange = if n < 0 then none else some (.inl n)) := by
  have hstate2 : lookupJ "state" (handleApiVersions fs) = some (.obj sfs) := by
    rw [lookupJ_handleApiVersions fs "state" (by decide) (by decide)]
    exact hstate
  have hst := (normalize_fields hok).2.2.2.2.2.2.2.2.1
  rw [optF, getJ, hstate2] at hst
  rw [show ((some (Json.obj sfs)).getD .null) = Json.obj sfs from rfl] at hst
  rw [show optVal stateCoerce (Json.obj sfs) =
    (stateCoerce (Json.obj sfs)).map some from rfl] at hst
  cases hsc : stateCoerce (.obj sfs) with
  | none =>
      rw [hsc] at hst
      exact absurd hst (by simp)
  | some st =>
      have hrst : r.state = some st := by
        rw [hsc] at hst
        simpa using hst.symm
      have hlc := stateCoerce_lastchange hsc
      constructor
      · intro q hq
        rw [lastchangeF_float hq] at hlc
        by_cases hneg : pyTrunc q < 0
        · rw [if_pos hneg] at hlc
          exact ⟨st, hrst, by
            rw [if_pos hneg]
            exact ((Option.some.injEq _ _).mp hlc).symm⟩
        · rw [if_neg hneg] at hlc
          exact ⟨st, hrst, by
            rw [if_neg hneg]
            exact ((Option.some.injEq _ _).mp hlc).symm⟩
      · intro n hn
        rw [lastchangeF_int hn] at hlc
        by_cases hneg : n < 0
        · rw [if_pos hneg] at hlc
          exact ⟨st, hrst, by
            rw [if_pos hneg]
            exact ((Option.some.injEq _ _).mp hlc).symm⟩
        · rw [if_neg hneg] at hlc
          exact ⟨st, hrst, by
            rw [if_neg hneg]
            exact ((Option.some.injEq _ _).mp hlc).symm⟩

/-- C6 witness at the spec's own scenario
`{"space": "Metalab", "state": {"lastchange": -5}}`: the record
normalizes and `lastChangedAt` is absent. -/
theorem c6_timestamp_coercion_witness :
    ∃ st, (⟨some ["14"], none, "Metalab", none, none, none, none, none,
      some ⟨none, none, none, none, none⟩, none, none, none, none, none,
      none, none, none, none, none, none, none⟩ : SpaceStatus).state = some st ∧
      st.lastchange = none := by
  have h := (c6_timestamp_coercion
    [("space", .str "Metalab"), ("state", .obj [("lastchange", .int (-5))])]
    [("lastchange", .int (-5))]
    ⟨some ["14"], none, "Metalab", none, none, none, none, none,
      some ⟨none, none, none, none, none⟩, none, none, none, none, none,
      none, none, none, none, none, none, none⟩ rfl rfl).2 (-5) rfl
  simpa using h

/-- C6 counterexample: `lastchange = -0.5` is a negative value, which
the claim says is treated as absent; the code truncates first
(`int(-0.5) == 0`) and `0` passes the negativity check, so the value is
kept as `0`, not dropped. -/
theorem c6_timestamp_coercion_counterexample :
    normalize (.obj [("space", .str "Metalab"),
      ("state", .obj [("lastchange", .float (mkRat (-1) 2))])]) =
      .ok ⟨some ["14"], none, "Metalab", none, none, none, none, none,
        some ⟨none, some (.inl 0), none, none, none⟩, none, none, none, none,
        none, none, none, none, none, none, none, none⟩ :=
  rfl

/-! ### Sensor cleaning (claim C7) -/

theorem lookupJ_append_of_none {α} {k : String} {l1 l2 : List (String × α)}
    (h : lookupJ k l1 = none) : lookupJ k (l1 ++ l2) = lookupJ k l2 := by
  induction l1 with
  | nil => rfl
  | cons p rest ih =>
      obtain ⟨k0, v0⟩ := p
      rw [lookupJ] at h
      by_cases h0 : k0 = k
      · rw [if_pos h0] at h
        exact Option.noConfusion h
      · rw [if_neg h0] at h
        rw [List.cons_append, lookupJ, if_neg h0]
        exact ih h

/-- Keys absent from the input are absent from the cleaned sensors. -/
theorem cleanCats_keys {cats : List (String × Json)} {cs : List (String × Json)}
    {k : String} (hok : cleanCats cats = .ok cs)
    (hk : k ∉ cats.map Prod.fst) : lookupJ k cs = none := by
  induction cats generalizing cs with
  | nil =>
      cases hok
      rfl
  | cons p rest ih =>
      obtain ⟨c0, v0⟩ := p
      simp only [List.map_cons, List.mem_cons] at hk
      push_neg at hk
      obtain ⟨hk0, hkrest⟩ := hk
      rw [cleanCats] at hok
      by_cases hn : isNull v0 = true
      · rw [if_pos hn] at hok
        exact ih hok hkrest
      · rw [if_neg hn] at hok
        cases hit : pyIter v0 with
        | error e =>
            rw [hit] at hok
            exact Except.noConfusion hok
        | ok xs =>
            rw [hit] at hok
            cases hrest : cleanCats rest with
            | error e =>
                rw [hrest] at hok
                exact Except.noConfusion hok
            | ok restC =>
                rw [hrest] at hok
                have hcs := (Except.ok.injEq _ _).mp hok
                rw [← hcs]
                by_cases he : (xs.filterMap (cleanSensorEntry c0)).isEmpty
                · rw [if_pos he]
                  exact ih hrest hkrest
                · rw [if_neg he, lookupJ, if_neg (fun h => hk0 h.symm)]
                  exact ih hrest hkrest

/-- A category all of whose readings are `null` is dropped from the
cleaned sensors. -/
theorem cleanCats_allnull {cats cs : List (String × Json)} {cat : String}
    {xs : List Json} (hnd : (cats.map Prod.fst).Nodup)
    (hl : lookupJ cat cats = some (.arr xs)) (hall : ∀ x ∈ xs, x = .null)
    (hok : cleanCats cats = .ok cs) : lookupJ cat cs = none := by
  induction cats generalizing cs with
  | nil => exact Option.noConfusion hl
  | cons p rest ih =>
      obtain ⟨c0, v0⟩ := p
      rw [lookupJ] at hl
      have hnd' : (c0 :: rest.map Prod.fst).Nodup := by simpa using hnd
      have hnd2 := List.nodup_cons.mp hnd'
      by_cases hc : c0 = cat
      · rw [if_pos hc] at hl
        have hv0 : v0 = .arr xs := Option.some.inj hl
        subst hv0
        subst hc
        rw [cleanCats] at hok
        rw [if_neg (by simp [isNull])] at hok
        rw [show pyIter (.arr xs) = .ok xs from rfl] at hok
        have hclean : xs.filterMap (cleanSensorEntry c0) = [] := by
          rw [List.filterMap_eq_nil_iff]
          intro x hx
          rw [hall x hx]
          rfl
        cases hrest : cleanCats rest with
        | error e =>
            rw [hrest] at hok
            exact Except.noConfusion hok
        | ok restC =>
            rw [hrest] at hok
            have hcs := (Except.ok.injEq _ _).mp hok
            rw [hclean] at hcs
            simp only [List.isEmpty_nil, if_true] at hcs
            rw [← hcs]
            exact cleanCats_keys hrest hnd2.1
      · rw [if_neg hc] at hl
        rw [cleanCats] at hok
        by_cases hn : isNull v0 = true
        · rw [if_pos hn] at hok
          exact ih hnd2.2 hl hok
        · rw [if_neg hn] at hok
          cases hit : pyIter v0 with
          | error e =>
              rw [hit] at hok
              exact Except.noConfusion hok
          | ok ys =>
              rw [hit] at hok
              cases hrest : cleanCats rest with
              | error e =>
                  rw [hrest] at hok
                  exact Except.noConfusion hok
              | ok restC =>
                  rw [hrest] at hok
                  have hcs := (Except.ok.injEq _ _).mp hok
                  rw [← hcs]
                  by_cases he : (ys.filterMap (cleanSensorEntry c0)).isEmpty
                  · rw [if_pos he]
                    exact ih hnd2.2 hl hrest
                  · rw [if_neg he, lookupJ, if_neg hc]
                    exact ih hnd2.2 hl hrest

/-- C7: sensor cleaning — `null` readings are dropped; `null`-valued
keys are stripped from each surviving object reading and a missing
`name` is synthesized as `"<category>_sensor"`; a category whose
readings are all `null` is absent from the cleaned mapping; and the
spec's scenario normalizes to
`sensors.temperature == [{name: "temperature_sensor", value: 21.5}]`. -/
theorem c7_sensor_cleaning :
    (normalize (.obj [("space", .str "Foo"), ("sensors",
      .obj [("temperature", .arr [.null, .obj [("value", .float (mkRat 43 2))]])])]) =
      .ok ⟨some ["14"], none, "Foo", none, none, none, none, none, none, none,
        none, none, none, none, none, none, none,
        some [("temperature", [.sensor ⟨some "temperature_sensor", none,
          some (.inl (mkRat 43 2)), none, none, none⟩])],
        none, none, none⟩) ∧
    (∀ cat, cleanSensorEntry cat .null = none) ∧
    (∀ (cats cs : List (String × Json)) (cat : String) (xs : List Json),
      (cats.map Prod.fst).Nodup → lookupJ cat cats = some (.arr xs) →
      (∀ x ∈ xs, x = .null) → cleanCats cats = .ok cs →
      lookupJ cat cs = none) ∧
    (∀ (cat : String) (d d2 : List (String × Json)),
      cleanSensorEntry cat (.obj d) = some (.obj d2) →
      (∀ p ∈ d2, ¬ isNull p.2 = true) ∧
      ((lookupJ "name" (d.filter (fun p => !isNull p.2))).isSome = false →
        lookupJ "name" d2 = some (.str (cat ++ "_sensor")))) := by
  refine ⟨rfl, fun cat => rfl, ?_, ?_⟩
  · intro cats cs cat xs hnd hl hall hok
    exact cleanCats_allnull hnd hl hall hok
  · intro cat d d2 h
    rw [cleanSensorEntry] at h
    have hd2 : (if (lookupJ "name" (d.filter (fun p => !isNull p.2))).isSome
        then d.filter (fun p => !isNull p.2)
        else d.filter (fun p => !isNull p.2) ++ [("name", .str (cat ++ "_sensor"))]) =
        d2 := by
      have := Option.some.inj h
      exact Json.obj.inj this
    constructor
    · intro p hp
      rw [← hd2] at hp
      by_cases hs : (lookupJ "name" (d.filter (fun p => !isNull p.2))).isSome
      · rw [if_pos hs] at hp
        have := List.of_mem_filter hp
        simpa using this
      · rw [if_neg hs] at hp
        rcases List.mem_append.mp hp with hp1 | hp1
        · have := List.of_mem_filter hp1
          simpa using this
        · have : p = ("name", Json.str (cat ++ "_sensor")) := by simpa using hp1
          rw [this]
          simp [isNull]
    · intro hnone
      rw [← hd2, if_neg (by rw [hnone]; exact Bool.false_ne_true)]
      rw [lookupJ_append_of_none (Option.not_isSome_iff_eq_none.mp
        (by rw [hnone]; exact Bool.false_ne_true))]
      rfl

/-- C7 witness: the all-`null` category lemma applied at
`{"temperature": [null]}`. -/
theorem c7_sensor_cleaning_witness :
    ∃ cs, cleanCats [("temperature", .arr [.null])] = .ok cs ∧
      lookupJ "temperature" cs = none := by
  refine ⟨[], rfl, ?_⟩
  exact c7_sensor_cleaning.2.2.1 [("temperature", .arr [.null])] []
    "temperature" [.null] (by simp) rfl (by simp) rfl

/-! ### Well-formedness of normalized records (towards claim C8)

Every record in the range of `normalize` satisfies `Wf` below, and
`Wf` is exactly what re-validating the serialized record needs. -/

def iconWf (i : SpaceStateIcon) : Prop :=
  isHttpUrl i.open_ = true ∧ isHttpUrl i.closed = true

def stateWf (st : SpaceState) : Prop :=
  (∀ v, st.lastchange = some v → ∃ n, v = .inl n ∧ 0 ≤ n) ∧
  (∀ i, st.icon = some i → iconWf i)

def locationWf (l : SpaceLocation) : Prop :=
  (∀ q, l.lat = some q → -90 ≤ q ∧ q ≤ 90) ∧
  (∀ q, l.lon = some q → -180 ≤ q ∧ q ≤ 180)

/-- A sensors-category element that can appear in a normalized record:
a `SpaceSensor` always carries a name; a raw dict is in cleaned form —
`name` key present, no `null` values — and (being raw) fails
`SpaceSensor` validation; the `None` branch of the `Union` never
survives cleaning. -/
def entryWf : SensorEntry → Prop
  | .sensor s => s.name.isSome = true
  | .raw d => (lookupJ "name" d).isSome = true ∧ (∀ p ∈ d, p.2 ≠ .null) ∧
      sensorOfDict d = none
  | .none_ => False

def projItemWf : String ⊕ SpaceProject → Prop
  | .inl u => isHttpUrl u = true
  | .inr p => isHttpUrl p.url = true

def sensorsWf (m : List (String × List SensorEntry)) : Prop :=
  m ≠ [] ∧ ∀ p ∈ m, p.2 ≠ [] ∧ ∀ e ∈ p.2, entryWf e

/-- The invariants `normalize` guarantees on a successful record. -/
structure Wf (r : SpaceStatus) : Prop where
  apiVer : (r.api_compatibility = none ∨ r.api_compatibility = some []) →
    ∃ s, r.api = some s ∧ s ≠ ""
  logo : ∀ u, r.logo = some u → isHttpUrl u = true
  url : ∀ u, r.url = some u → isHttpUrl u = true
  location : ∀ l, r.location = some l → locationWf l
  state : ∀ st, r.state = some st → stateWf st
  projects : ∀ ps, r.projects = some ps → ∀ it ∈ ps, projItemWf it
  cam : ∀ l, r.cam = some l → ∀ u ∈ l, isHttpUrl u = true
  feed : ∀ m, r.feed = some m → ∀ p ∈ m, isHttpUrl p.2 = true
  radio_show : ∀ l, r.radio_show = some l → ∀ u ∈ l, isHttpUrl u = true
  projects_url : ∀ u, r.projects_url = some u → isHttpUrl u = true
  sensors : ∀ m, r.sensors = some m → sensorsWf m
  icon : ∀ i, r.icon = some i → iconWf i

/-! Inversion of the primitive coercions. -/

theorem urlCoerce_some {v : Json} {u : String} (h : urlCoerce v = some u) :
    isHttpUrl u = true := by
  rw [urlCoerce] at h
  cases hs : strCoerce v with
  | none => rw [hs] at h; exact Option.noConfusion h
  | some s =>
      rw [hs] at h
      have h2 : (if isHttpUrl s = true then some s else none) = some u := h
      by_cases hu : isHttpUrl s = true
      · rw [if_pos hu] at h2
        cases h2
        exact hu
      · rw [if_neg hu] at h2
        exact Option.noConfusion h2

theorem latCoerce_some {v : Json} {q : Rat} (h : latCoerce v = some q) :
    -90 ≤ q ∧ q ≤ 90 := by
  rw [latCoerce] at h
  cases hf : floatCoerce v with
  | none => rw [hf] at h; exact Option.noConfusion h
  | some q2 =>
      rw [hf] at h
      have h2 : (if -90 ≤ q2 ∧ q2 ≤ 90 then some q2 else none) = some q := h
      by_cases hr : -90 ≤ q2 ∧ q2 ≤ 90
      · rw [if_pos hr] at h2
        cases h2
        exact hr
      · rw [if_neg hr] at h2
        exact Option.noConfusion h2

theorem lonCoerce_some {v : Json} {q : Rat} (h : lonCoerce v = some q) :
    -180 ≤ q ∧ q ≤ 180 := by
  rw [lonCoerce] at h
  cases hf : floatCoerce v with
  | none => rw [hf] at h; exact Option.noConfusion h
  | some q2 =>
      rw [hf] at h
      have h2 : (if -180 ≤ q2 ∧ q2 ≤ 180 then some q2 else none) = some q := h
      by_cases hr : -180 ≤ q2 ∧ q2 ≤ 180
      · rw [if_pos hr] at h2
        cases h2
        exact hr
      · rw [if_neg hr] at h2
        exact Option.noConfusion h2

/-- A present optional field validated to `some a` came from a
non-`null` raw value coerced to `a`. -/
theorem optVal_some_some {coe : Json → Option α} {v : Json} {a : α}
    (h : optVal coe v = some (some a)) : coe v = some a := by
  cases v <;> simp_all [optVal]

theorem optF_some_some {coe : Json → Option α} {fs : List (String × Json)}
    {k : String} {a : α} (h : optF coe fs k = some (some a)) :
    ∃ v, coe v = some a :=
  ⟨getJ fs k, optVal_some_some h⟩

/-- Membership through a successful `mapMO`. -/
theorem mapMO_mem {α β} {f : α → Option β} :
    ∀ {xs : List α} {l : List β}, mapMO f xs = some l →
      ∀ b ∈ l, ∃ a ∈ xs, f a = some b := by
  intro xs
  induction xs with
  | nil =>
      intro l h b hb
      cases h
      exact absurd hb (by simp)
  | cons x xs ih =>
      intro l h b hb
      rw [mapMO] at h
      cases hf : f x with
      | none => rw [hf] at h; exact Option.noConfusion h
      | some y =>
          rw [hf] at h
          cases hr : mapMO f xs with
          | none => rw [hr] at h; exact Option.noConfusion h
          | some ys =>
              rw [hr] at h
              cases h
              rcases List.mem_cons.mp hb with hb1 | hb1
              · exact ⟨x, by simp, by rw [hf, hb1]⟩
              · obtain ⟨a, ha, hfa⟩ := ih hr b hb1
                exact ⟨a, by simp [ha], hfa⟩

/-- A validated `listCoerce` field: each output element came from some
input element. -/
theorem listCoerce_mem {coe : Json → Option α} {v : Json} {l : List α}
    (h : listCoerce coe v = some l) : ∀ a ∈ l, ∃ x, coe x = some a := by
  cases v with
  | arr xs =>
      intro a ha
      obtain ⟨x, -, hx⟩ := mapMO_mem h a ha
      exact ⟨x, hx⟩
  | null => exact Option.noConfusion h
  | bool b => exact Option.noConfusion h
  | int n => exact Option.noConfusion h
  | float q => exact Option.noConfusion h
  | str s => exact Option.noConfusion h
  | obj fs => exact Option.noConfusion h

theorem dictCoerce_mem {coe : Json → Option α} {v : Json}
    {m : List (String × α)} (h : dictCoerce coe v = some m) :
    ∀ p ∈ m, ∃ x, coe x = some p.2 := by
  cases v with
  | obj fs =>
      intro p hp
      obtain ⟨x, -, hx⟩ := mapMO_mem h p hp
      cases hc : coe x.2 with
      | none =>
          rw [hc] at hx
          exact Option.noConfusion hx
      | some a =>
          rw [hc] at hx
          have hpa : (x.1, a) = p := by simpa using hx
          exact ⟨x.2, by rw [hc, ← hpa]⟩
  | null => exact Option.noConfusion h
  | bool b => exact Option.noConfusion h
  | int n => exact Option.noConfusion h
  | float q => exact Option.noConfusion h
  | str s => exact Option.noConfusion h
  | arr xs => exact Option.noConfusion h

/-- `SpaceSensor(**d)` reads its `name` straight off the cleaned dict. -/
theorem sensorOfDict_some_name {d : List (String × Json)} {s : SpaceSensor}
    (h : sensorOfDict d = some s) : optF strCoerce d "name" = some s.name := by
  simp only [sensorOfDict] at h
  obtain ⟨n1, hn1, h⟩ := bind_some_elim h
  obtain ⟨u1, hu1, h⟩ := bind_some_elim h
  obtain ⟨v1, hv1, h⟩ := bind_some_elim h
  obtain ⟨l1, hl1, h⟩ := bind_some_elim h
  obtain ⟨ns1, hns1, h⟩ := bind_some_elim h
  obtain ⟨t1, ht1, h⟩ := bind_some_elim h
  have h2 : SpaceSensor.mk n1 u1 v1 l1 ns1 t1 = s := by simpa using h
  rw [← h2]
  exact hn1

theorem iconCoerce_some {v : Json} {i : SpaceStateIcon}
    (h : iconCoerce v = some i) : iconWf i := by
  cases v with
  | obj fs =>
      simp only [iconCoerce] at h
      obtain ⟨o1, ho1, h⟩ := bind_some_elim h
      obtain ⟨c1, hc1, h⟩ := bind_some_elim h
      have h2 : SpaceStateIcon.mk o1 c1 = i := by simpa using h
      rw [← h2]
      obtain ⟨w1, -, hw1⟩ := bind_some_elim ho1
      obtain ⟨w2, -, hw2⟩ := bind_some_elim hc1
      exact ⟨urlCoerce_some hw1, urlCoerce_some hw2⟩
  | null => exact Option.noConfusion h
  | bool b => exact Option.noConfusion h
  | int n => exact Option.noConfusion h
  | float q => exact Option.noConfusion h
  | str s => exact Option.noConfusion h
  | arr xs => exact Option.noConfusion h

/-- The timestamp pre-validator only lets through `null`, a
non-negative int, or a bool. -/
theorem validateTimestamp_ok {w w' : Json} (h : validateTimestamp w = .ok w') :
    w' = .null ∨ (∃ n : Int, w' = .int n ∧ 0 ≤ n) ∨ (∃ b, w' = .bool b) := by
  cases w with
  | null =>
      have h2 : Except.ok (ε := Unit) Json.null = .ok w' := h
      cases h2
      exact .inl rfl
  | float q =>
      rw [show validateTimestamp (.float q) = if pyTrunc q < 0 then .ok .null
        else .ok (.int (pyTrunc q)) from rfl] at h
      by_cases hq : pyTrunc q < 0
      · rw [if_pos hq] at h
        cases h
        exact .inl rfl
      · rw [if_neg hq] at h
        cases h
        exact .inr (.inl ⟨pyTrunc q, rfl, by omega⟩)
  | int n =>
      rw [show validateTimestamp (.int n) = if n < 0 then .ok .null
        else .ok (.int n) from rfl] at h
      by_cases hq : n < 0
      · rw [if_pos hq] at h
        cases h
        exact .inl rfl
      · rw [if_neg hq] at h
        cases h
        exact .inr (.inl ⟨n, rfl, by omega⟩)
  | bool b =>
      have h2 : Except.ok (ε := Unit) (Json.bool b) = .ok w' := h
      cases h2
      exact .inr (.inr ⟨b, rfl⟩)
  | str s => exact Except.noConfusion h
  | arr xs => exact Except.noConfusion h
  | obj fs => exact Except.noConfusion h

/-- A surviving `lastchange` is a non-negative int. -/
theorem lastchangeF_some_some {sfs : List (String × Json)} {v : Int ⊕ Rat}
    (h : lastchangeF sfs = some (some v)) : ∃ n, v = .inl n ∧ 0 ≤ n := by
  rw [lastchangeF] at h
  cases hl : lookupJ "lastchange" sfs with
  | none =>
      rw [hl] at h
      exact absurd h (by simp)
  | some w =>
      rw [hl] at h
      have h2 : lastchangeVal w = some (some v) := h
      rw [lastchangeVal] at h2
      cases hvt : validateTimestamp w with
      | error e =>
          rw [hvt] at h2
          exact Option.noConfusion h2
      | ok w2 =>
          rw [hvt] at h2
          rcases validateTimestamp_ok hvt with h0 | ⟨n, h0, hn⟩ | ⟨b, h0⟩
          · subst h0
            exact absurd h2 (by simp)
          · subst h0
            have h3 : some (some (Sum.inl n : Int ⊕ Rat)) = some (some v) := h2
            exact ⟨n, (Option.some.inj (Option.some.inj h3)).symm, hn⟩
          · subst h0
            have h3 : some (some (Sum.inl (if b then (1 : Int) else 0) : Int ⊕ Rat)) =
              some (some v) := h2
            refine ⟨if b then 1 else 0,
              (Option.some.inj (Option.some.inj h3)).symm, ?_⟩
            cases b <;> norm_num

theorem lookupJ_mem {α} {k : String} {v : α} :
    ∀ {l : List (String × α)}, lookupJ k l = some v → (k, v) ∈ l := by
  intro l
  induction l with
  | nil => intro h; exact Option.noConfusion h
  | cons p rest ih =>
      intro h
      obtain ⟨k0, v0⟩ := p
      rw [lookupJ] at h
      by_cases h0 : k0 = k
      · rw [if_pos h0] at h
        subst h0
        cases Option.some.inj h
        exact List.mem_cons_self _ _
      · rw [if_neg h0] at h
        exact List.mem_cons_of_mem _ (ih h)

/-- A present optional field can only validate to `None` from a
literal `null`. -/
theorem optVal_some_none {coe : Json → Option α} {v : Json}
    (h : optVal coe v = some none) : v = .null := by
  cases v <;> simp_all [optVal]

theorem stateCoerce_icon {sfs : List (String × Json)} {st : SpaceState}
    (h : stateCoerce (.obj sfs) = some st) :
    optF iconCoerce sfs "icon" = some st.icon := by
  simp only [stateCoerce] at h
  obtain ⟨o1, ho1, h⟩ := bind_some_elim h
  obtain ⟨l1, hl1, h⟩ := bind_some_elim h
  obtain ⟨t1, ht1, h⟩ := bind_some_elim h
  obtain ⟨m1, hm1, h⟩ := bind_some_elim h
  obtain ⟨i1, hi1, h⟩ := bind_some_elim h
  have h2 : SpaceState.mk o1 l1 t1 m1 i1 = st := by simpa using h
  rw [← h2]
  exact hi1

theorem stateCoerce_wf {v : Json} {st : SpaceState}
    (h : stateCoerce v = some st) : stateWf st := by
  cases v with
  | obj sfs =>
      constructor
      · intro w hw
        have hlc := stateCoerce_lastchange h
        rw [hw] at hlc
        exact lastchangeF_some_some hlc
      · intro i hi
        have hic := stateCoerce_icon h
        rw [hi] at hic
        obtain ⟨w, hw⟩ := optF_some_some hic
        exact iconCoerce_some hw
  | null => exact Option.noConfusion h
  | bool b => exact Option.noConfusion h
  | int n => exact Option.noConfusion h
  | float q => exact Option.noConfusion h
  | str s => exact Option.noConfusion h
  | arr xs => exact Option.noConfusion h

theorem locOk_wf {lfs : List (String × Json)} {l : SpaceLocation}
    (h : locOk lfs = some l) : locationWf l := by
  simp only [locOk] at h
  obtain ⟨a1, ha1, h⟩ := bind_some_elim h
  obtain ⟨q1, hq1, h⟩ := bind_some_elim h
  obtain ⟨q2, hq2, h⟩ := bind_some_elim h
  obtain ⟨t1, ht1, h⟩ := bind_some_elim h
  have h2 : SpaceLocation.mk a1 q1 q2 t1 = l := by simpa using h
  rw [← h2]
  constructor
  · intro q hq
    rw [show (SpaceLocation.mk a1 q1 q2 t1).lat = q1 from rfl] at hq
    rw [hq] at hq1
    obtain ⟨w, hw⟩ := optF_some_some hq1
    exact latCoerce_some hw
  · intro q hq
    rw [show (SpaceLocation.mk a1 q1 q2 t1).lon = q2 from rfl] at hq
    rw [hq] at hq2
    obtain ⟨w, hw⟩ := optF_some_some hq2
    exact lonCoerce_some hw

theorem vLocationFld_ok_wf {vs : List (String × Json)} {l : SpaceLocation}
    (h : vLocationFld vs = .ok (some l)) : locationWf l := by
  rw [vLocationFld] at h
  cases hl : lookupJ "location" vs with
  | none =>
      rw [hl] at h
      exact absurd h (by simp)
  | some v =>
      rw [hl] at h
      cases v with
      | obj lfs =>
          have h1 : (match vLocation (Json.obj lfs) with
              | Except.ok l2 => Except.ok (some l2)
              | Except.error es => Except.error
                  (es.map (fun e => FieldError.mk ("location" :: e.loc) e.kind))) =
              Except.ok (ε := List FieldError) (some l) := h
          cases hv : vLocation (.obj lfs) with
          | ok l2 =>
              rw [hv] at h1
              have h2 : Except.ok (ε := List FieldError) (some l2) = .ok (some l) := h1
              have h3 : l2 = l := by simpa using h2
              subst h3
              have hv2 : (match locOk lfs with
                  | some l3 => Except.ok l3
                  | none => Except.error (locErrs lfs)) =
                  Except.ok (ε := List FieldError) l2 := hv
              cases ho : locOk lfs with
              | some l3 =>
                  rw [ho] at hv2
                  have h4 : l3 = l2 := by simpa using hv2
                  rw [← h4]
                  exact locOk_wf ho
              | none =>
                  rw [ho] at hv2
                  exact Except.noConfusion hv2
          | error es =>
              rw [hv] at h1
              exact Except.noConfusion h1
      | null =>
          have h2 : Except.ok (ε := List FieldError)
            (none : Option SpaceLocation) = .ok (some l) := h
          exact absurd h2 (by simp)
      | bool b => exact Except.noConfusion h
      | int n => exact Except.noConfusion h
      | float q => exact Except.noConfusion h
      | str s => exact Except.noConfusion h
      | arr xs => exact Except.noConfusion h

theorem projectCoerce_url {v : Json} {p : SpaceProject}
    (h : projectCoerce v = some p) : isHttpUrl p.url = true := by
  cases v with
  | obj fs =>
      simp only [projectCoerce] at h
      obtain ⟨n1, hn1, h⟩ := bind_some_elim h
      obtain ⟨u1, hu1, h⟩ := bind_some_elim h
      obtain ⟨d1, hd1, h⟩ := bind_some_elim h
      obtain ⟨t1, ht1, h⟩ := bind_some_elim h
      have h4 : SpaceProject.mk n1 u1 d1 t1 = p := by simpa using h
      rw [← h4]
      rw [reqF] at hu1
      obtain ⟨w, -, hw⟩ := bind_some_elim hu1
      exact urlCoerce_some hw
  | null => exact Option.noConfusion h
  | bool b => exact Option.noConfusion h
  | int n => exact Option.noConfusion h
  | float q => exact Option.noConfusion h
  | str s => exact Option.noConfusion h
  | arr xs => exact Option.noConfusion h

theorem projectItemCoerce_some {v : Json} {it : String ⊕ SpaceProject}
    (h : projectItemCoerce v = some it) : projItemWf it := by
  delta projectItemCoerce at h
  cases hu : urlCoerce v with
  | some u =>
      rw [hu] at h
      have h2 : some (Sum.inl u : String ⊕ SpaceProject) = some it := h
      rw [← Option.some.inj h2]
      exact urlCoerce_some hu
  | none =>
      rw [hu] at h
      cases v with
      | obj fs =>
          have h3 : (projectCoerce (.obj fs)).map Sum.inr = some it := h
          cases hp : projectCoerce (.obj fs) with
          | none =>
              rw [hp] at h3
              exact Option.noConfusion h3
          | some p =>
              rw [hp] at h3
              have h4 : Sum.inr p = it := by simpa using h3
              rw [← h4]
              exact projectCoerce_url hp
      | null => exact Option.noConfusion h
      | bool b => exact Option.noConfusion h
      | int n => exact Option.noConfusion h
      | float q => exact Option.noConfusion h
      | str s => exact Option.noConfusion h
      | arr xs => exact Option.noConfusion h

theorem lookupJ_append_none {α} {k : String} {l1 l2 : List (String × α)}
    (h : lookupJ k l1 = none) : lookupJ k (l1 ++ l2) = lookupJ k l2 := by
  induction l1 with
  | nil => rfl
  | cons p rest ih =>
      obtain ⟨k0, v0⟩ := p
      rw [List.cons_append, lookupJ]
      rw [lookupJ] at h
      by_cases h0 : k0 = k
      · rw [if_pos h0] at h
        exact Option.noConfusion h
      · rw [if_neg h0] at h ⊢
        exact ih h

theorem mapMO_some_nil {α β} {f : α → Option β} :
    ∀ {xs : List α}, mapMO f xs = some [] → xs = [] := by
  intro xs h
  cases xs with
  | nil => rfl
  | cons x rest =>
      rw [mapMO] at h
      cases hf : f x with
      | none =>
          rw [hf] at h
          exact Option.noConfusion h
      | some b =>
          rw [hf] at h
          have h2 : (match mapMO f rest with
              | none => none
              | some bs => some (b :: bs)) = some ([] : List β) := h
          cases hm : mapMO f rest with
          | none =>
              rw [hm] at h2
              exact Option.noConfusion h2
          | some bs =>
              rw [hm] at h2
              have h3 : b :: bs = [] := Option.some.inj h2
              exact absurd h3 (by simp)

theorem dictCoerce_obj {coe : Json → Option α} {v : Json} {m : List (String × α)}
    (h : dictCoerce coe v = some m) : ∃ fs, v = .obj fs := by
  cases v with
  | obj fs => exact ⟨fs, rfl⟩
  | null => exact Option.noConfusion h
  | bool b => exact Option.noConfusion h
  | int n => exact Option.noConfusion h
  | float q => exact Option.noConfusion h
  | str s => exact Option.noConfusion h
  | arr xs => exact Option.noConfusion h

/-- Membership in a successful dict coercion, keeping the key. -/
theorem dictCoerce_pairs {coe : Json → Option α} {fs : List (String × Json)}
    {m : List (String × α)} (h : dictCoerce coe (.obj fs) = some m) :
    ∀ p ∈ m, ∃ w, (p.1, w) ∈ fs ∧ coe w = some p.2 := by
  intro p hp
  have h2 : mapMO (fun q => (coe q.2).map (fun a => (q.1, a))) fs = some m := h
  obtain ⟨q, hq, hcq⟩ := mapMO_mem h2 p hp
  cases hc : coe q.2 with
  | none =>
      rw [hc] at hcq
      exact Option.noConfusion hcq
  | some a =>
      rw [hc] at hcq
      have h3 : (q.1, a) = p := by simpa using hcq
      refine ⟨q.2, ?_, ?_⟩
      · rw [← h3]
        exact hq
      · rw [← h3]
        exact hc

/-- Each category a successful `cleanCats` returns carries the
nonempty cleaned entry list of its source category. -/
theorem cleanCats_mem :
    ∀ {cats c : List (String × Json)}, cleanCats cats = .ok c →
      ∀ p ∈ c, ∃ xs : List Json,
        p.2 = .arr (xs.filterMap (cleanSensorEntry p.1)) ∧
        xs.filterMap (cleanSensorEntry p.1) ≠ [] := by
  intro cats
  induction cats with
  | nil =>
      intro c h p hp
      have h2 : (Except.ok [] : Except SensErr (List (String × Json))) = .ok c := h
      cases Except.ok.inj h2
      exact absurd hp (by simp)
  | cons p0 rest ih =>
      intro c h p hp
      obtain ⟨cat, v⟩ := p0
      rw [cleanCats] at h
      by_cases hn : isNull v = true
      · rw [if_pos hn] at h
        exact ih h p hp
      · rw [if_neg hn] at h
        cases hpi : pyIter v with
        | error e =>
            rw [hpi] at h
            exact Except.noConfusion h
        | ok xs =>
            rw [hpi] at h
            have h2 : (match cleanCats rest with
                | Except.error e => Except.error e
                | Except.ok restC =>
                    Except.ok (if (xs.filterMap (cleanSensorEntry cat)).isEmpty = true
                      then restC
                      else (cat, Json.arr (xs.filterMap (cleanSensorEntry cat))) :: restC)) =
                .ok c := h
            cases hcr : cleanCats rest with
            | error e =>
                rw [hcr] at h2
                exact Except.noConfusion h2
            | ok restC =>
                rw [hcr] at h2
                have h3 := Except.ok.inj h2
                by_cases hem : (xs.filterMap (cleanSensorEntry cat)).isEmpty = true
                · rw [if_pos hem] at h3
                  subst h3
                  exact ih hcr p hp
                · rw [if_neg hem] at h3
                  subst h3
                  rcases List.mem_cons.mp hp with hp1 | hp2
                  · subst hp1
                    exact ⟨xs, rfl, fun hnil => hem (by simp [hnil])⟩
                  · exact ih hcr p hp2

/-- What comes out of `cleanSensorEntry`: a cleaned dict (name key
present, no `null` values) or a passed-through value that is neither
`null` nor a dict. -/
theorem cleanSensorEntry_props {cat : String} {x w : Json}
    (h : cleanSensorEntry cat x = some w) :
    (∃ d, w = .obj d ∧ (lookupJ "name" d).isSome = true ∧ ∀ p ∈ d, p.2 ≠ .null) ∨
    (w ≠ .null ∧ ∀ d, w ≠ .obj d) := by
  cases x with
  | null => exact Option.noConfusion h
  | obj d0 =>
      left
      have h2 : some (Json.obj
          (if (lookupJ "name" (d0.filter (fun p => !isNull p.2))).isSome = true
            then d0.filter (fun p => !isNull p.2)
            else d0.filter (fun p => !isNull p.2)
              ++ [("name", .str (cat ++ "_sensor"))])) = some w := h
      have hw := Option.some.inj h2
      by_cases hnm : (lookupJ "name" (d0.filter (fun p => !isNull p.2))).isSome = true
      · rw [if_pos hnm] at hw
        refine ⟨d0.filter (fun p => !isNull p.2), hw.symm, hnm, ?_⟩
        intro p hpf hpn
        have hf := List.of_mem_filter hpf
        rw [hpn] at hf
        simp [isNull] at hf
      · rw [if_neg hnm] at hw
        refine ⟨_, hw.symm, ?_, ?_⟩
        · have hnone : lookupJ "name" (d0.filter (fun p => !isNull p.2)) = none := by
            cases hl : lookupJ "name" (d0.filter (fun p => !isNull p.2)) with
            | none => rfl
            | some z => rw [hl] at hnm; simp at hnm
          rw [lookupJ_append_none hnone]
          rfl
        · intro p hpm hpn
          rcases List.mem_append.mp hpm with hpf | hps
          · have hf := List.of_mem_filter hpf
            rw [hpn] at hf
            simp [isNull] at hf
          · have hp1 : p = ("name", Json.str (cat ++ "_sensor")) := by simpa using hps
            rw [hp1] at hpn
            exact Json.noConfusion hpn
  | bool b =>
      cases Option.some.inj h
      exact Or.inr ⟨fun hh => Json.noConfusion hh, fun d hh => Json.noConfusion hh⟩
  | int n =>
      cases Option.some.inj h
      exact Or.inr ⟨fun hh => Json.noConfusion hh, fun d hh => Json.noConfusion hh⟩
  | float q =>
      cases Option.some.inj h
      exact Or.inr ⟨fun hh => Json.noConfusion hh, fun d hh => Json.noConfusion hh⟩
  | str s =>
      cases Option.some.inj h
      exact Or.inr ⟨fun hh => Json.noConfusion hh, fun d hh => Json.noConfusion hh⟩
  | arr xs =>
      cases Option.some.inj h
      exact Or.inr ⟨fun hh => Json.noConfusion hh, fun d hh => Json.noConfusion hh⟩

/-- A present non-`null` value validated by `optVal` yields `Some`. -/
theorem optVal_ne_null {coe : Json → Option α} {v : Json} {o : Option α}
    (hv : v ≠ .null) (h : optVal coe v = some o) :
    ∃ a, o = some a ∧ coe v = some a := by
  have h2 : (coe v).map some = some o := by
    cases v with
    | null => exact absurd rfl hv
    | bool b => exact h
    | int n => exact h
    | float q => exact h
    | str s => exact h
    | arr xs => exact h
    | obj fs => exact h
  cases hc : coe v with
  | none =>
      rw [hc] at h2
      exact Option.noConfusion h2
  | some a =>
      rw [hc] at h2
      exact ⟨a, (Option.some.inj h2).symm, rfl⟩

/-- A sensors entry that survived cleaning and then validated is
well-formed. -/
theorem cleaned_entry_wf {cat : String} {x w : Json} {e : SensorEntry}
    (hc : cleanSensorEntry cat x = some w)
    (hs : sensorEntryCoerce w = some e) : entryWf e := by
  rcases cleanSensorEntry_props hc with ⟨d, hwq, hnm, hnn⟩ | ⟨hn, hno⟩
  · subst hwq
    have hs2 : some (match sensorOfDict d with
        | some s => SensorEntry.sensor s
        | none => SensorEntry.raw d) = some e := hs
    cases hsd : sensorOfDict d with
    | some s =>
        rw [hsd] at hs2
        have h3 : SensorEntry.sensor s = e := by simpa using hs2
        rw [← h3]
        show s.name.isSome = true
        have hname := sensorOfDict_some_name hsd
        rw [optF] at hname
        obtain ⟨v0, hv0⟩ := Option.isSome_iff_exists.mp hnm
        have hg : getJ d "name" = v0 := by rw [getJ, hv0]; rfl
        rw [hg] at hname
        have hv0n : v0 ≠ .null := hnn ("name", v0) (lookupJ_mem hv0)
        obtain ⟨a, ha, -⟩ := optVal_ne_null hv0n hname
        rw [ha]
        rfl
    | none =>
        rw [hsd] at hs2
        have h3 : SensorEntry.raw d = e := by simpa using hs2
        rw [← h3]
        exact ⟨hnm, hnn, hsd⟩
  · cases w with
    | null => exact absurd rfl hn
    | obj d => exact absurd rfl (hno d)
    | bool b => exact Option.noConfusion hs
    | int n => exact Option.noConfusion hs
    | float q => exact Option.noConfusion hs
    | str s => exact Option.noConfusion hs
    | arr xs => exact Option.noConfusion hs

/-- A cleaned sensors value that validated as a nonempty dict came from
a dict of categories whose cleaning succeeded. -/
theorem validateSensorsPre_ok_obj {v : Json} {c : List (String × Json)}
    (h : validateSensorsPre v = .ok (.obj c)) :
    ∃ cats, v = .obj cats ∧ cleanCats cats = .ok c ∧ c ≠ [] := by
  cases v with
  | null =>
      have h2 : (Except.ok Json.null : Except SensErr Json) = .ok (.obj c) := h
      exact Json.noConfusion (Except.ok.inj h2)
  | obj cats =>
      refine ⟨cats, rfl, ?_⟩
      have h2 : (cleanCats cats).map
          (fun c2 => if c2.isEmpty = true then Json.null else Json.obj c2) =
          .ok (.obj c) := h
      cases hcc : cleanCats cats with
      | error e =>
          rw [hcc] at h2
          exact Except.noConfusion h2
      | ok c0 =>
          rw [hcc] at h2
          have h3 : (Except.ok (if c0.isEmpty = true then Json.null else Json.obj c0) :
              Except SensErr Json) = .ok (.obj c) := h2
          have h4 := Except.ok.inj h3
          by_cases he : c0.isEmpty = true
          · rw [if_pos he] at h4
            exact Json.noConfusion h4
          · rw [if_neg he] at h4
            have h5 : c0 = c := Json.obj.inj h4
            subst h5
            exact ⟨rfl, fun hnil => he (by simp [hnil])⟩
  | bool b => exact Except.noConfusion h
  | int n => exact Except.noConfusion h
  | float q => exact Except.noConfusion h
  | str s => exact Except.noConfusion h
  | arr xs => exact Except.noConfusion h

/-- Every record a successful `normalize` returns satisfies the `Wf`
invariants. -/
theorem normalize_wf {j : Json} {r : SpaceStatus} (h : normalize j = .ok r) :
    Wf r := by
  cases j with
  | obj fs =>
      obtain ⟨hac, hapi, hsp, hlogo, hurl, hloc, hcon, hirc, hst, hev, hpr, hsf,
        hcam, hfeed, hrs, hcache, hpu, hsens, hlinks, hicon, htimes⟩ :=
        normalize_fields h
      constructor
      · intro hdis
        rcases version_field_present _ _ h with ⟨l, hl, hlne⟩ | hr2
        · rcases hdis with hd1 | hd2
          · rw [hd1] at hl
            exact Option.noConfusion hl
          · rw [hd2] at hl
            exact absurd (Option.some.inj hl).symm hlne
        · exact hr2
      · intro u hu
        rw [hu] at hlogo
        obtain ⟨w, hw⟩ := optF_some_some hlogo
        exact urlCoerce_some hw
      · intro u hu
        rw [hu] at hurl
        obtain ⟨w, hw⟩ := optF_some_some hurl
        exact urlCoerce_some hw
      · intro l hl
        rw [hl] at hloc
        exact vLocationFld_ok_wf hloc
      · intro st hst2
        rw [hst2] at hst
        obtain ⟨w, hw⟩ := optF_some_some hst
        exact stateCoerce_wf hw
      · intro ps hps it hit
        rw [hps] at hpr
        obtain ⟨w, hw⟩ := optF_some_some hpr
        obtain ⟨x, hx⟩ := listCoerce_mem hw it hit
        exact projectItemCoerce_some hx
      · intro l hl u hu
        rw [hl] at hcam
        obtain ⟨w, hw⟩ := optF_some_some hcam
        obtain ⟨x, hx⟩ := listCoerce_mem hw u hu
        exact urlCoerce_some hx
      · intro m hm p hp
        rw [hm] at hfeed
        obtain ⟨w, hw⟩ := optF_some_some hfeed
        obtain ⟨x, hx⟩ := dictCoerce_mem hw p hp
        exact urlCoerce_some hx
      · intro l hl u hu
        rw [hl] at hrs
        obtain ⟨w, hw⟩ := optF_some_some hrs
        obtain ⟨x, hx⟩ := listCoerce_mem hw u hu
        exact urlCoerce_some hx
      · intro u hu
        rw [hu] at hpu
        obtain ⟨w, hw⟩ := optF_some_some hpu
        exact urlCoerce_some hw
      · intro m hm
        obtain ⟨cleaned, hpre, hov⟩ := hsens
        rw [hm] at hov
        have hdc := optVal_some_some hov
        obtain ⟨c, hceq⟩ := dictCoerce_obj hdc
        subst hceq
        obtain ⟨cats, hveq, hcc, hcne⟩ := validateSensorsPre_ok_obj hpre
        refine ⟨?_, ?_⟩
        · intro hm0
          have h2 : mapMO (fun q => ((listCoerce sensorEntryCoerce) q.2).map
              (fun a => (q.1, a))) c = some m := hdc
          rw [hm0] at h2
          exact hcne (mapMO_some_nil h2)
        · intro p hp
          obtain ⟨w, hwmem, hlc⟩ := dictCoerce_pairs hdc p hp
          obtain ⟨xs, hweq, hwne⟩ := cleanCats_mem hcc (p.1, w) hwmem
          have hweq2 : w = .arr (xs.filterMap (cleanSensorEntry p.1)) := hweq
          rw [hweq2] at hlc
          have hmap : mapMO sensorEntryCoerce (xs.filterMap (cleanSensorEntry p.1)) =
              some p.2 := hlc
          refine ⟨?_, ?_⟩
          · intro h0
            rw [h0] at hmap
            exact hwne (mapMO_some_nil hmap)
          · intro e he
            obtain ⟨a, haL, hae⟩ := mapMO_mem hmap e he
            obtain ⟨x, hx, hcx⟩ := List.mem_filterMap.mp haL
            exact cleaned_entry_wf hcx hae
      · intro i hi
        rw [hi] at hicon
        obtain ⟨w, hw⟩ := optF_some_some hicon
        exact iconCoerce_some hw
  | null => exact Except.noConfusion h
  | bool b => exact Except.noConfusion h
  | int n => exact Except.noConfusion h
  | float q => exact Except.noConfusion h
  | str s => exact Except.noConfusion h
  | arr xs => exact Except.noConfusion h

/-! ### Serialization round-trips -/

theorem mapMO_cons_some {α β} {f : α → Option β} {x : α} {b : β} {xs : List α}
    {bs : List β} (h1 : f x = some b) (h2 : mapMO f xs = some bs) :
    mapMO f (x :: xs) = some (b :: bs) := by
  rw [mapMO, h1, h2]

theorem mapMO_roundtrip {α β} {g : α → β} {f : β → Option α} :
    ∀ {l : List α}, (∀ a ∈ l, f (g a) = some a) → mapMO f (l.map g) = some l := by
  intro l
  induction l with
  | nil => intro h; rfl
  | cons x xs ih =>
      intro h
      have h1 : f (g x) = some x := h x (List.mem_cons_self x xs)
      have h2 : mapMO f (xs.map g) = some xs :=
        ih (fun a ha => h a (List.mem_cons_of_mem _ ha))
      show (match f (g x) with
        | none => none
        | some b =>
            match mapMO f (xs.map g) with
            | none => none
            | some bs => some (b :: bs)) = some (x :: xs)
      rw [h1, h2]

theorem isNull_eq_false {v : Json} (h : v ≠ .null) : isNull v = false := by
  cases v with
  | null => exact absurd rfl h
  | bool b => rfl
  | int n => rfl
  | float q => rfl
  | str s => rfl
  | arr xs => rfl
  | obj fs => rfl

theorem urlCoerce_str {u : String} (h : isHttpUrl u = true) :
    urlCoerce (.str u) = some u := by
  show (if isHttpUrl u = true then some u else none) = some u
  rw [if_pos h]

theorem strListCoerce_jStrList (l : List String) :
    strListCoerce (jStrList l) = some l := by
  show mapMO strCoerce (l.map Json.str) = some l
  exact mapMO_roundtrip (fun a _ => rfl)

theorem dictCoerce_jDict {coe : Json → Option α} {ser : α → Json}
    {m : List (String × α)} (h : ∀ p ∈ m, coe (ser p.2) = some p.2) :
    dictCoerce coe (jDict ser m) = some m := by
  show mapMO (fun q => (coe q.2).map (fun a => (q.1, a)))
      (m.map (fun p => (p.1, ser p.2))) = some m
  refine mapMO_roundtrip (fun p hp => ?_)
  show (coe (ser p.2)).map (fun a => (p.1, a)) = some p
  rw [h p hp]
  rfl

theorem optVal_jOpt_str (o : Option String) :
    optVal strCoerce (jOpt .str o) = some o := by
  cases o <;> rfl

theorem optVal_jOpt_int (o : Option Int) :
    optVal intCoerce (jOpt .int o) = some o := by
  cases o <;> rfl

theorem optVal_jOpt_bool (o : Option Bool) :
    optVal boolCoerce (jOpt .bool o) = some o := by
  cases o <;> rfl

theorem optVal_jOpt_extra (o : Option (List (String × Json) ⊕ String)) :
    optVal extraCoerce (jOpt jExtra o) = some o := by
  cases o with
  | none => rfl
  | some x => cases x <;> rfl

theorem optVal_jOpt_value (o : Option (Rat ⊕ String)) :
    optVal valueCoerce (jOpt jValue o) = some o := by
  cases o with
  | none => rfl
  | some v => cases v <;> rfl

theorem optVal_jOpt_strList (o : Option (List String)) :
    optVal strListCoerce (jOpt jStrList o) = some o := by
  cases o with
  | none => rfl
  | some l =>
      show (strListCoerce (jStrList l)).map some = some (some l)
      rw [strListCoerce_jStrList]
      rfl

theorem optVal_jOpt_url {o : Option String}
    (h : ∀ u, o = some u → isHttpUrl u = true) :
    optVal urlCoerce (jOpt .str o) = some o := by
  cases o with
  | none => rfl
  | some u =>
      show (urlCoerce (.str u)).map some = some (some u)
      rw [urlCoerce_str (h u rfl)]
      rfl

theorem latCoerce_float {q : Rat} (h1 : -90 ≤ q) (h2 : q ≤ 90) :
    latCoerce (.float q) = some q := by
  show (if -90 ≤ q ∧ q ≤ 90 then some q else none) = some q
  rw [if_pos ⟨h1, h2⟩]

theorem lonCoerce_float {q : Rat} (h1 : -180 ≤ q) (h2 : q ≤ 180) :
    lonCoerce (.float q) = some q := by
  show (if -180 ≤ q ∧ q ≤ 180 then some q else none) = some q
  rw [if_pos ⟨h1, h2⟩]

theorem optVal_jOpt_lat {o : Option Rat}
    (h : ∀ q, o = some q → -90 ≤ q ∧ q ≤ 90) :
    optVal latCoerce (jOpt .float o) = some o := by
  cases o with
  | none => rfl
  | some q =>
      obtain ⟨h1, h2⟩ := h q rfl
      show (latCoerce (.float q)).map some = some (some q)
      rw [latCoerce_float h1 h2]
      rfl

theorem optVal_jOpt_lon {o : Option Rat}
    (h : ∀ q, o = some q → -180 ≤ q ∧ q ≤ 180) :
    optVal lonCoerce (jOpt .float o) = some o := by
  cases o with
  | none => rfl
  | some q =>
      obtain ⟨h1, h2⟩ := h q rfl
      show (lonCoerce (.float q)).map some = some (some q)
      rw [lonCoerce_float h1 h2]
      rfl

theorem validateTimestamp_int {n : Int} (h : 0 ≤ n) :
    validateTimestamp (.int n) = .ok (.int n) := by
  show (if n < 0 then Except.ok Json.null else Except.ok (Json.int n)) = .ok (.int n)
  rw [if_neg (by omega)]

theorem lastchangeVal_int {n : Int} (h : 0 ≤ n) :
    lastchangeVal (.int n) = some (some (.inl n)) := by
  show ((match validateTimestamp (.int n) with
    | Except.error _ => none
    | Except.ok Json.null => some none
    | Except.ok v2 =>
        match intCoerce v2 with
        | some n2 => some (some (Sum.inl n2))
        | none => (floatCoerce v2).map (fun q => some (Sum.inr q))) :
      Option (Option (Int ⊕ Rat))) = some (some (Sum.inl n))
  rw [validateTimestamp_int h]
  rfl

theorem lastchangeVal_jOpt {o : Option (Int ⊕ Rat)}
    (h : ∀ v, o = some v → ∃ n, v = .inl n ∧ 0 ≤ n) :
    lastchangeVal (jOpt jLastchange o) = some o := by
  cases o with
  | none => rfl
  | some v =>
      obtain ⟨n, hv, hn⟩ := h v rfl
      subst hv
      exact lastchangeVal_int hn

theorem iconCoerce_toJson {i : SpaceStateIcon} (hw : iconWf i) :
    iconCoerce i.toJson = some i := by
  obtain ⟨ho, hc⟩ := hw
  show (urlCoerce (.str i.open_)).bind (fun o =>
    (urlCoerce (.str i.closed)).bind (fun c =>
    some ⟨o, c⟩)) = some i
  rw [urlCoerce_str ho, urlCoerce_str hc]
  rfl

theorem optVal_jOpt_icon {o : Option SpaceStateIcon}
    (h : ∀ i, o = some i → iconWf i) :
    optVal iconCoerce (jOpt SpaceStateIcon.toJson o) = some o := by
  cases o with
  | none => rfl
  | some i =>
      show (iconCoerce i.toJson).map some = some (some i)
      rw [iconCoerce_toJson (h i rfl)]
      rfl

theorem contactCoerce_toJson (c : SpaceContact) :
    contactCoerce c.toJson = some c := by
  show (optVal strCoerce (jOpt .str c.email)).bind (fun email =>
    (optVal strCoerce (jOpt .str c.irc)).bind (fun irc =>
    (optVal strCoerce (jOpt .str c.ml)).bind (fun ml =>
    (optVal strCoerce (jOpt .str c.twitter)).bind (fun twitter =>
    (optVal strCoerce (jOpt .str c.facebook)).bind (fun facebook =>
    (optVal strCoerce (jOpt .str c.mastodon)).bind (fun mastodon =>
    (optVal strCoerce (jOpt .str c.phone)).bind (fun phone =>
    (optVal strCoerce (jOpt .str c.sip)).bind (fun sip =>
    (optVal strCoerce (jOpt .str c.jabber)).bind (fun jabber =>
    (optVal strCoerce (jOpt .str c.issue_mail)).bind (fun issue_mail =>
    some ⟨email, irc, ml, twitter, facebook, mastodon, phone, sip, jabber,
      issue_mail⟩)))))))))) = some c
  rw [optVal_jOpt_str, optVal_jOpt_str, optVal_jOpt_str, optVal_jOpt_str,
    optVal_jOpt_str, optVal_jOpt_str, optVal_jOpt_str, optVal_jOpt_str,
    optVal_jOpt_str, optVal_jOpt_str]
  rfl

theorem optVal_jOpt_contact (o : Option SpaceContact) :
    optVal contactCoerce (jOpt SpaceContact.toJson o) = some o := by
  cases o with
  | none => rfl
  | some c =>
      show (contactCoerce c.toJson).map some = some (some c)
      rw [contactCoerce_toJson]
      rfl

theorem stateCoerce_toJson {st : SpaceState} (hw : stateWf st) :
    stateCoerce st.toJson = some st := by
  obtain ⟨hlc, hic⟩ := hw
  show (optVal boolCoerce (jOpt .bool st.open_)).bind (fun o =>
    (lastchangeVal (jOpt jLastchange st.lastchange)).bind (fun lc =>
    (optVal strCoerce (jOpt .str st.trigger_person)).bind (fun tp =>
    (optVal strCoerce (jOpt .str st.message)).bind (fun msg =>
    (optVal iconCoerce (jOpt SpaceStateIcon.toJson st.icon)).bind (fun ic =>
    some ⟨o, lc, tp, msg, ic⟩))))) = some st
  rw [optVal_jOpt_bool, lastchangeVal_jOpt hlc, optVal_jOpt_str, optVal_jOpt_str,
    optVal_jOpt_icon hic]
  rfl

theorem optVal_jOpt_state {o : Option SpaceState}
    (h : ∀ st, o = some st → stateWf st) :
    optVal stateCoerce (jOpt SpaceState.toJson o) = some o := by
  cases o with
  | none => rfl
  | some st =>
      show (stateCoerce st.toJson).map some = some (some st)
      rw [stateCoerce_toJson (h st rfl)]
      rfl

theorem eventCoerce_toJson (e : SpaceEvent) : eventCoerce e.toJson = some e := by
  show (strCoerce (.str e.name)).bind (fun name =>
    (optVal strCoerce (jOpt .str e.type_)).bind (fun t =>
    (optVal intCoerce (jOpt .int e.timestamp)).bind (fun ts =>
    (optVal extraCoerce (jOpt jExtra e.extra)).bind (fun ex =>
    some ⟨name, t, ts, ex⟩)))) = some e
  rw [optVal_jOpt_str, optVal_jOpt_int, optVal_jOpt_extra]
  rfl

theorem optVal_jOpt_events (o : Option (List SpaceEvent)) :
    optVal (listCoerce eventCoerce)
      (jOpt (fun l => Json.arr (l.map SpaceEvent.toJson)) o) = some o := by
  cases o with
  | none => rfl
  | some l =>
      show (mapMO eventCoerce (l.map SpaceEvent.toJson)).map some = some (some l)
      rw [mapMO_roundtrip (fun e _ => eventCoerce_toJson e)]
      rfl

theorem projectCoerce_toJson {p : SpaceProject} (h : isHttpUrl p.url = true) :
    projectCoerce p.toJson = some p := by
  show (optVal strCoerce (jOpt .str p.name)).bind (fun name =>
    (urlCoerce (.str p.url)).bind (fun url =>
    (optVal strCoerce (jOpt .str p.description)).bind (fun d =>
    (optVal strCoerce (jOpt .str p.type_)).bind (fun t =>
    some ⟨name, url, d, t⟩)))) = some p
  rw [optVal_jOpt_str, urlCoerce_str h, optVal_jOpt_str, optVal_jOpt_str]
  rfl

theorem projectItemCoerce_jProjectItem {it : String ⊕ SpaceProject}
    (h : projItemWf it) : projectItemCoerce (jProjectItem it) = some it := by
  cases it with
  | inl u =>
      have h2 : isHttpUrl u = true := h
      show (match urlCoerce (.str u) with
        | some u2 => some (Sum.inl u2)
        | none =>
            match Json.str u with
            | Json.obj fs => (projectCoerce (Json.obj fs)).map Sum.inr
            | _ => none) = some (Sum.inl u)
      rw [urlCoerce_str h2]
  | inr p =>
      have h2 : isHttpUrl p.url = true := h
      show (projectCoerce p.toJson).map Sum.inr = some (Sum.inr p)
      rw [projectCoerce_toJson h2]
      rfl

theorem optVal_jOpt_projects {o : Option (List (String ⊕ SpaceProject))}
    (h : ∀ ps, o = some ps → ∀ it ∈ ps, projItemWf it) :
    optVal (listCoerce projectItemCoerce)
      (jOpt (fun l => Json.arr (l.map jProjectItem)) o) = some o := by
  cases o with
  | none => rfl
  | some l =>
      show (mapMO projectItemCoerce (l.map jProjectItem)).map some = some (some l)
      rw [mapMO_roundtrip (fun it hit => projectItemCoerce_jProjectItem (h l rfl it hit))]
      rfl

theorem optVal_jOpt_urlList {o : Option (List String)}
    (h : ∀ l, o = some l → ∀ u ∈ l, isHttpUrl u = true) :
    optVal (listCoerce urlCoerce) (jOpt jStrList o) = some o := by
  cases o with
  | none => rfl
  | some l =>
      show (mapMO urlCoerce (l.map .str)).map some = some (some l)
      rw [mapMO_roundtrip (fun u hu => urlCoerce_str (h l rfl u hu))]
      rfl

theorem optVal_jOpt_urlDict {o : Option (List (String × String))}
    (h : ∀ m, o = some m → ∀ p ∈ m, isHttpUrl p.2 = true) :
    optVal (dictCoerce urlCoerce) (jOpt (jDict .str) o) = some o := by
  cases o with
  | none => rfl
  | some m =>
      show (dictCoerce urlCoerce (jDict .str m)).map some = some (some m)
      rw [dictCoerce_jDict (fun p hp => urlCoerce_str (h m rfl p hp))]
      rfl

theorem optVal_jOpt_boolDict (o : Option (List (String × Bool))) :
    optVal (dictCoerce boolCoerce) (jOpt (jDict .bool) o) = some o := by
  cases o with
  | none => rfl
  | some m =>
      show (dictCoerce boolCoerce (jDict .bool m)).map some = some (some m)
      rw [dictCoerce_jDict (fun p _ => rfl)]
      rfl

theorem optVal_jOpt_anyDict (o : Option (List (String × Json))) :
    optVal (dictCoerce some) (jOpt (jDict id) o) = some o := by
  cases o with
  | none => rfl
  | some m =>
      show (dictCoerce some (jDict id m)).map some = some (some m)
      rw [dictCoerce_jDict (fun p _ => rfl)]
      rfl

theorem optVal_jOpt_links (o : Option (List (List (String × Json)))) :
    optVal (listCoerce objCoerce) (jOpt (fun l => Json.arr (l.map .obj)) o) = some o := by
  cases o with
  | none => rfl
  | some l =>
      have h2 : mapMO objCoerce (l.map Json.obj) = some l :=
        mapMO_roundtrip (fun fs _ => rfl)
      show (mapMO objCoerce (l.map Json.obj)).map some = some (some l)
      rw [h2]
      rfl

theorem vLocation_toJson {l : SpaceLocation} (hw : locationWf l) :
    vLocation l.toJson = .ok l := by
  obtain ⟨hla, hlo⟩ := hw
  have hok : locOk [("address", jOpt .str l.address), ("lat", jOpt .float l.lat),
      ("lon", jOpt .float l.lon), ("timezone", jOpt .str l.timezone)] = some l := by
    show (optVal strCoerce (jOpt .str l.address)).bind (fun a =>
      (optVal latCoerce (jOpt .float l.lat)).bind (fun la =>
      (optVal lonCoerce (jOpt .float l.lon)).bind (fun lo =>
      (optVal strCoerce (jOpt .str l.timezone)).bind (fun tz =>
      some ⟨a, la, lo, tz⟩)))) = some l
    rw [optVal_jOpt_str, optVal_jOpt_lat hla, optVal_jOpt_lon hlo, optVal_jOpt_str]
    rfl
  show (match locOk [("address", jOpt .str l.address), ("lat", jOpt .float l.lat),
      ("lon", jOpt .float l.lon), ("timezone", jOpt .str l.timezone)] with
    | some l2 => Except.ok l2
    | none => Except.error (locErrs [("address", jOpt .str l.address),
        ("lat", jOpt .float l.lat), ("lon", jOpt .float l.lon),
        ("timezone", jOpt .str l.timezone)])) = .ok l
  rw [hok]

theorem lookupJ_eq_none_of_not_mem {α} {k : String} {l : List (String × α)}
    (h : k ∉ l.map Prod.fst) : lookupJ k l = none := by
  induction l with
  | nil => rfl
  | cons p rest ih =>
      obtain ⟨k0, v0⟩ := p
      rw [List.map_cons] at h
      rw [lookupJ]
      by_cases h0 : k0 = k
      · subst h0
        exact absurd (List.mem_cons_self _ _) h
      · rw [if_neg h0]
        exact ih (fun hm => h (List.mem_cons_of_mem _ hm))

theorem lookupJ_filter_none {α} {k : String} {pred : String × α → Bool}
    {l : List (String × α)} (h : lookupJ k l = none) :
    lookupJ k (l.filter pred) = none := by
  induction l with
  | nil => rfl
  | cons p rest ih =>
      obtain ⟨k0, v0⟩ := p
      rw [lookupJ] at h
      by_cases h0 : k0 = k
      · rw [if_pos h0] at h
        exact Option.noConfusion h
      · rw [if_neg h0] at h
        rw [List.filter_cons]
        by_cases hp : pred (k0, v0) = true
        · rw [if_pos hp, lookupJ, if_neg h0]
          exact ih h
        · rw [if_neg hp]
          exact ih h

/-- Looking a key up after stripping `null`-valued entries, when the
keys are distinct. -/
theorem lookupJ_filter_nonnull {k : String} :
    ∀ {d : List (String × Json)}, (d.map Prod.fst).Nodup →
      lookupJ k (d.filter (fun p => !isNull p.2)) =
        (match lookupJ k d with
         | none => none
         | some v => if isNull v = true then none else some v) := by
  intro d
  induction d with
  | nil => intro hnd; rfl
  | cons p rest ih =>
      intro hnd
      obtain ⟨k0, v0⟩ := p
      rw [List.map_cons, List.nodup_cons] at hnd
      obtain ⟨hk0, hnd2⟩ := hnd
      rw [List.filter_cons]
      by_cases hv : (!isNull v0) = true
      · rw [if_pos hv]
        by_cases h0 : k0 = k
        · subst h0
          rw [lookupJ_cons, if_pos rfl, lookupJ_cons, if_pos rfl]
          have hv2 : isNull v0 = false := by
            revert hv
            cases isNull v0 <;> simp
          show some v0 = if isNull v0 = true then none else some v0
          rw [hv2]
          rfl
        · rw [lookupJ_cons, if_neg h0, lookupJ_cons, if_neg h0]
          exact ih hnd2
      · rw [if_neg hv]
        by_cases h0 : k0 = k
        · subst h0
          have hv2 : isNull v0 = true := by
            revert hv
            cases isNull v0 <;> simp
          rw [lookupJ_cons, if_pos rfl]
          show lookupJ k0 (rest.filter (fun p => !isNull p.2)) =
            if isNull v0 = true then none else some v0
          rw [hv2, if_pos rfl]
          exact lookupJ_filter_none (lookupJ_eq_none_of_not_mem hk0)
        · rw [lookupJ_cons, if_neg h0]
          exact ih hnd2

/-- Validation of an `Optional` field ignores `null`-stripping of the
enclosing dict (absent and `null` both read as `None`). -/
theorem optF_filter_nonnull {α} (coe : Json → Option α)
    {d : List (String × Json)} (k : String) (hnd : (d.map Prod.fst).Nodup) :
    optF coe (d.filter (fun p => !isNull p.2)) k = optF coe d k := by
  rw [optF, optF, getJ, getJ, lookupJ_filter_nonnull hnd]
  cases hl : lookupJ k d with
  | none => rfl
  | some v =>
      show optVal coe ((if isNull v = true then none else some v).getD Json.null) =
        optVal coe ((some v).getD Json.null)
      by_cases hv : isNull v = true
      · rw [if_pos hv]
        have hvn : v = Json.null := by
          cases v with
          | null => rfl
          | bool b => simp [isNull] at hv
          | int n => simp [isNull] at hv
          | float q => simp [isNull] at hv
          | str s => simp [isNull] at hv
          | arr xs => simp [isNull] at hv
          | obj fs => simp [isNull] at hv
        rw [hvn]
        rfl
      · rw [if_neg hv]

/-- Re-validating a serialized sensor dict after its `null` fields were
stripped returns the original sensor. -/
theorem sensorOfDict_roundtrip (n : String) (unit : Option String)
    (value : Option (Rat ⊕ String)) (location : Option String)
    (names : Option (List String)) (timestamp : Option Int) :
    sensorOfDict ([("name", Json.str n), ("unit", jOpt .str unit),
      ("value", jOpt jValue value), ("location", jOpt .str location),
      ("names", jOpt jStrList names), ("timestamp", jOpt .int timestamp)].filter
        (fun p => !isNull p.2)) =
      some ⟨some n, unit, value, location, names, timestamp⟩ := by
  have hnd : (([("name", Json.str n), ("unit", jOpt .str unit),
      ("value", jOpt jValue value), ("location", jOpt .str location),
      ("names", jOpt jStrList names), ("timestamp", jOpt .int timestamp)]).map
        Prod.fst).Nodup := by
    show (["name", "unit", "value", "location", "names", "timestamp"] :
      List String).Nodup
    decide
  show (optF strCoerce ([("name", Json.str n), ("unit", jOpt .str unit),
      ("value", jOpt jValue value), ("location", jOpt .str location),
      ("names", jOpt jStrList names), ("timestamp", jOpt .int timestamp)].filter
        (fun p => !isNull p.2)) "name").bind (fun name2 =>
    (optF strCoerce ([("name", Json.str n), ("unit", jOpt .str unit),
      ("value", jOpt jValue value), ("location", jOpt .str location),
      ("names", jOpt jStrList names), ("timestamp", jOpt .int timestamp)].filter
        (fun p => !isNull p.2)) "unit").bind (fun unit2 =>
    (optF valueCoerce ([("name", Json.str n), ("unit", jOpt .str unit),
      ("value", jOpt jValue value), ("location", jOpt .str location),
      ("names", jOpt jStrList names), ("timestamp", jOpt .int timestamp)].filter
        (fun p => !isNull p.2)) "value").bind (fun value2 =>
    (optF strCoerce ([("name", Json.str n), ("unit", jOpt .str unit),
      ("value", jOpt jValue value), ("location", jOpt .str location),
      ("names", jOpt jStrList names), ("timestamp", jOpt .int timestamp)].filter
        (fun p => !isNull p.2)) "location").bind (fun location2 =>
    (optF namesCoerce ([("name", Json.str n), ("unit", jOpt .str unit),
      ("value", jOpt jValue value), ("location", jOpt .str location),
      ("names", jOpt jStrList names), ("timestamp", jOpt .int timestamp)].filter
        (fun p => !isNull p.2)) "names").bind (fun names2 =>
    (optF intCoerce ([("name", Json.str n), ("unit", jOpt .str unit),
      ("value", jOpt jValue value), ("location", jOpt .str location),
      ("names", jOpt jStrList names), ("timestamp", jOpt .int timestamp)].filter
        (fun p => !isNull p.2)) "timestamp").bind (fun timestamp2 =>
    some (SpaceSensor.mk name2 unit2 value2 location2 names2 timestamp2))))))) =
    some (SpaceSensor.mk (some n) unit value location names timestamp)
  rw [optF_filter_nonnull strCoerce "name" hnd,
    optF_filter_nonnull strCoerce "unit" hnd,
    optF_filter_nonnull valueCoerce "value" hnd,
    optF_filter_nonnull strCoerce "location" hnd,
    optF_filter_nonnull namesCoerce "names" hnd,
    optF_filter_nonnull intCoerce "timestamp" hnd]
  have e1 : optF strCoerce [("name", Json.str n), ("unit", jOpt .str unit),
      ("value", jOpt jValue value), ("location", jOpt .str location),
      ("names", jOpt jStrList names), ("timestamp", jOpt .int timestamp)] "name" =
      some (some n) := rfl
  have e2 : optF strCoerce [("name", Json.str n), ("unit", jOpt .str unit),
      ("value", jOpt jValue value), ("location", jOpt .str location),
      ("names", jOpt jStrList names), ("timestamp", jOpt .int timestamp)] "unit" =
      some unit := optVal_jOpt_str unit
  have e3 : optF valueCoerce [("name", Json.str n), ("unit", jOpt .str unit),
      ("value", jOpt jValue value), ("location", jOpt .str location),
      ("names", jOpt jStrList names), ("timestamp", jOpt .int timestamp)] "value" =
      some value := optVal_jOpt_value value
  have e4 : optF strCoerce [("name", Json.str n), ("unit", jOpt .str unit),
      ("value", jOpt jValue value), ("location", jOpt .str location),
      ("names", jOpt jStrList names), ("timestamp", jOpt .int timestamp)] "location" =
      some location := optVal_jOpt_str location
  have e5 : optF namesCoerce [("name", Json.str n), ("unit", jOpt .str unit),
      ("value", jOpt jValue value), ("location", jOpt .str location),
      ("names", jOpt jStrList names), ("timestamp", jOpt .int timestamp)] "names" =
      some names := optVal_jOpt_strList names
  have e6 : optF intCoerce [("name", Json.str n), ("unit", jOpt .str unit),
      ("value", jOpt jValue value), ("location", jOpt .str location),
      ("names", jOpt jStrList names), ("timestamp", jOpt .int timestamp)] "timestamp" =
      some timestamp := optVal_jOpt_int timestamp
  rw [e1, e2, e3, e4, e5, e6]
  rfl

/-- Cleaning a serialized well-formed sensors entry changes nothing
that validation can see: it re-validates to the same entry. -/
theorem cleanSensorEntry_toJson {cat : String} {e : SensorEntry} (hw : entryWf e) :
    ∃ w, cleanSensorEntry cat e.toJson = some w ∧ sensorEntryCoerce w = some e := by
  cases e with
  | none_ => exact False.elim hw
  | raw d =>
      obtain ⟨hnm, hnn, hsd⟩ := hw
      have hfil : d.filter (fun p => !isNull p.2) = d :=
        List.filter_eq_self.mpr (fun p hp => by
          rw [isNull_eq_false (hnn p hp)]
          rfl)
      refine ⟨.obj d, ?_, ?_⟩
      · show some (Json.obj
            (if (lookupJ "name" (d.filter (fun p => !isNull p.2))).isSome = true
              then d.filter (fun p => !isNull p.2)
              else d.filter (fun p => !isNull p.2)
                ++ [("name", .str (cat ++ "_sensor"))])) = some (.obj d)
        rw [hfil, if_pos hnm]
      · show (some (match sensorOfDict d with
            | some s => SensorEntry.sensor s
            | none => SensorEntry.raw d) : Option SensorEntry) = some (.raw d)
        rw [hsd]
  | sensor s =>
      obtain ⟨name, unit, value, location, names, timestamp⟩ := s
      obtain ⟨n, hn⟩ := Option.isSome_iff_exists.mp hw
      subst hn
      refine ⟨.obj ([("name", Json.str n), ("unit", jOpt .str unit),
        ("value", jOpt jValue value), ("location", jOpt .str location),
        ("names", jOpt jStrList names), ("timestamp", jOpt .int timestamp)].filter
          (fun p => !isNull p.2)), rfl, ?_⟩
      show (some (match sensorOfDict ([("name", Json.str n), ("unit", jOpt .str unit),
          ("value", jOpt jValue value), ("location", jOpt .str location),
          ("names", jOpt jStrList names), ("timestamp", jOpt .int timestamp)].filter
            (fun p => !isNull p.2)) with
        | some s2 => SensorEntry.sensor s2
        | none => SensorEntry.raw ([("name", Json.str n), ("unit", jOpt .str unit),
            ("value", jOpt jValue value), ("location", jOpt .str location),
            ("names", jOpt jStrList names), ("timestamp", jOpt .int timestamp)].filter
              (fun p => !isNull p.2))) : Option SensorEntry) =
        some (.sensor (SpaceSensor.mk (some n) unit value location names timestamp))
      rw [sensorOfDict_roundtrip]

/-- One serialized well-formed sensors category cleans to a list that
re-validates to the original entries, one for one. -/
theorem category_roundtrip {cat : String} {es : List SensorEntry}
    (hwf : ∀ e ∈ es, entryWf e) :
    mapMO sensorEntryCoerce
        ((es.map SensorEntry.toJson).filterMap (cleanSensorEntry cat)) = some es ∧
    ((es.map SensorEntry.toJson).filterMap (cleanSensorEntry cat)).length = es.length := by
  induction es with
  | nil => exact ⟨rfl, rfl⟩
  | cons e rest ih =>
      obtain ⟨w, hcw, hsw⟩ := cleanSensorEntry_toJson (hwf e (List.mem_cons_self e rest))
      obtain ⟨ih1, ih2⟩ := ih (fun x hx => hwf x (List.mem_cons_of_mem _ hx))
      have hfc : ((e :: rest).map SensorEntry.toJson).filterMap (cleanSensorEntry cat) =
          w :: (rest.map SensorEntry.toJson).filterMap (cleanSensorEntry cat) := by
        rw [List.map_cons, List.filterMap_cons, hcw]
      constructor
      · rw [hfc]
        exact mapMO_cons_some hsw ih1
      · rw [hfc, List.length_cons, List.length_cons, ih2]

/-- Serialized well-formed sensors survive `validate_sensors`
unchanged, category by category. -/
theorem cleanCats_jSensors :
    ∀ {m : List (String × List SensorEntry)},
      (∀ p ∈ m, p.2 ≠ [] ∧ ∀ e ∈ p.2, entryWf e) →
      ∃ c, cleanCats (m.map (fun p => (p.1, Json.arr (p.2.map SensorEntry.toJson)))) =
          .ok c ∧
        mapMO (fun q => ((listCoerce sensorEntryCoerce) q.2).map (fun a => (q.1, a))) c =
          some m ∧
        c.length = m.length := by
  intro m
  induction m with
  | nil =>
      intro hw
      exact ⟨[], rfl, rfl, rfl⟩
  | cons p rest ih =>
      intro hw
      obtain ⟨hne, hwf⟩ := hw p (List.mem_cons_self p rest)
      obtain ⟨c0, hc0, hd0, hl0⟩ := ih (fun q hq => hw q (List.mem_cons_of_mem _ hq))
      obtain ⟨hmap, hlen⟩ := @category_roundtrip p.1 p.2 hwf
      have hLne : (p.2.map SensorEntry.toJson).filterMap (cleanSensorEntry p.1) ≠ [] := by
        intro h0
        rw [h0] at hlen
        exact hne (List.length_eq_zero.mp hlen.symm)
      have hEmp : ((p.2.map SensorEntry.toJson).filterMap
          (cleanSensorEntry p.1)).isEmpty = false := by
        cases hL : (p.2.map SensorEntry.toJson).filterMap (cleanSensorEntry p.1) with
        | nil => exact absurd hL hLne
        | cons a as => rfl
      refine ⟨(p.1, .arr ((p.2.map SensorEntry.toJson).filterMap (cleanSensorEntry p.1)))
        :: c0, ?_, ?_, ?_⟩
      · show cleanCats ((p.1, Json.arr (p.2.map SensorEntry.toJson)) ::
          rest.map (fun q => (q.1, Json.arr (q.2.map SensorEntry.toJson)))) =
          .ok ((p.1, .arr ((p.2.map SensorEntry.toJson).filterMap (cleanSensorEntry p.1)))
            :: c0)
        rw [cleanCats]
        rw [if_neg (by simp [isNull])]
        show (match cleanCats
            (rest.map (fun q => (q.1, Json.arr (q.2.map SensorEntry.toJson)))) with
          | Except.error e2 => Except.error e2
          | Except.ok restC =>
              Except.ok (if ((p.2.map SensorEntry.toJson).filterMap
                  (cleanSensorEntry p.1)).isEmpty = true
                then restC
                else (p.1, Json.arr ((p.2.map SensorEntry.toJson).filterMap
                  (cleanSensorEntry p.1))) :: restC)) =
          .ok ((p.1, .arr ((p.2.map SensorEntry.toJson).filterMap (cleanSensorEntry p.1)))
            :: c0)
        rw [hc0, hEmp]
        rfl
      · have hf : (listCoerce sensorEntryCoerce
            (Json.arr ((p.2.map SensorEntry.toJson).filterMap (cleanSensorEntry p.1)))).map
            (fun a => (p.1, a)) = some (p.1, p.2) := by
          show (mapMO sensorEntryCoerce ((p.2.map SensorEntry.toJson).filterMap
            (cleanSensorEntry p.1))).map (fun a => (p.1, a)) = some (p.1, p.2)
          rw [hmap]
          rfl
        exact mapMO_cons_some hf hd0
      · show ((p.1, Json.arr ((p.2.map SensorEntry.toJson).filterMap
            (cleanSensorEntry p.1))) :: c0).length = (p :: rest).length
        rw [List.length_cons, List.length_cons, hl0]

/-- The sensors field of a serialized well-formed record passes the
`pre` cleaner and the field validator back to the original value. -/
theorem sens_field_roundtrip {r : SpaceStatus} (hw : Wf r) :
    ∃ cleaned, validateSensorsPre (getJ (serFields r) "sensors") = .ok cleaned ∧
      vSensorsFld cleaned = .ok r.sensors := by
  have hg : getJ (serFields r) "sensors" = jOpt jSensors r.sensors := rfl
  rw [hg]
  cases hs : r.sensors with
  | none => exact ⟨.null, rfl, rfl⟩
  | some m =>
      obtain ⟨mne, hcats⟩ := hw.sensors m hs
      obtain ⟨c, hcc, hmm, hlc⟩ := cleanCats_jSensors hcats
      have hcne : c.isEmpty = false := by
        cases hc2 : c with
        | nil =>
            rw [hc2] at hlc
            exact absurd (List.length_eq_zero.mp hlc.symm) mne
        | cons a as => rfl
      refine ⟨.obj c, ?_, ?_⟩
      · show (cleanCats (m.map (fun p => (p.1, Json.arr (p.2.map SensorEntry.toJson))))).map
            (fun c2 => if c2.isEmpty = true then Json.null else Json.obj c2) =
            .ok (.obj c)
        rw [hcc]
        show Except.ok (ε := SensErr)
            (if c.isEmpty = true then Json.null else Json.obj c) = .ok (.obj c)
        rw [hcne]
        rfl
      · show ((match optVal (dictCoerce (listCoerce sensorEntryCoerce)) (Json.obj c) with
            | some o => Except.ok o
            | none => Except.error [FieldError.mk ["sensors"] ErrKind.invalid]) :
          Except (List FieldError) (Option (List (String × List SensorEntry)))) =
          .ok (some m)
        have hov : optVal (dictCoerce (listCoerce sensorEntryCoerce)) (Json.obj c) =
            some (some m) := by
          show (mapMO (fun q => ((listCoerce sensorEntryCoerce) q.2).map
              (fun a => (q.1, a))) c).map some = some (some m)
          rw [hmm]
          rfl
        rw [hov]

/-- When either version field already reads truthy, the defaulting half
of `handle_api_versions` does nothing. -/
theorem handleApiDefault_id {values : List (String × Json)}
    (h : truthy (getJ values "api_compatibility") = true ∨
      truthy (getJ values "api") = true) :
    handleApiDefault values = values := by
  rcases h with h1 | h1 <;> simp [handleApiDefault, h1]

/-- On a serialized well-formed record `handle_api_versions` is the
identity: the `api_compatibility` key is present (so the legacy branch
is skipped) and one version field is truthy (so the default branch is
skipped). -/
theorem handleApiVersions_serFields {r : SpaceStatus} (hw : Wf r) :
    handleApiVersions (serFields r) = serFields r := by
  have hleg : handleApiLegacy (serFields r) = serFields r := rfl
  have hdis : truthy (getJ (serFields r) "api_compatibility") = true ∨
      truthy (getJ (serFields r) "api") = true := by
    have hg1 : getJ (serFields r) "api_compatibility" =
        jOpt jStrList r.api_compatibility := rfl
    have hg2 : getJ (serFields r) "api" = jOpt .str r.api := rfl
    rw [hg1, hg2]
    cases hc : r.api_compatibility with
    | some l =>
        cases hl : l with
        | nil =>
            right
            rw [hl] at hc
            obtain ⟨s, hs, hsne⟩ := hw.apiVer (Or.inr hc)
            rw [hs]
            show (s != "") = true
            simpa using hsne
        | cons x xs =>
            left
            rfl
    | none =>
        right
        obtain ⟨s, hs, hsne⟩ := hw.apiVer (Or.inl hc)
        rw [hs]
        show (s != "") = true
        simpa using hsne
  show handleApiDefault (handleApiLegacy (serFields r)) = serFields r
  rw [hleg]
  exact handleApiDefault_id hdis

/-- A field validator succeeds on whatever its coercion accepts. -/
theorem fld_ok {coe : Json → Option α} {vs : List (String × Json)} {k : String}
    {o : Option α} (h : optF coe vs k = some o) : fld coe vs k = .ok o := by
  rw [fld, h]

/-- The `location` field of a serialized well-formed record
re-validates to itself. -/
theorem vLocationFld_serFields {r : SpaceStatus} (hw : Wf r) :
    vLocationFld (serFields r) = .ok r.location := by
  show (match some (jOpt SpaceLocation.toJson r.location) with
    | none => Except.ok none
    | some .null => Except.ok none
    | some v =>
        match vLocation v with
        | .ok l => .ok (some l)
        | .error es =>
            .error (es.map (fun (e : FieldError) =>
              FieldError.mk ("location" :: e.loc) e.kind))) =
    .ok r.location
  cases hl : r.location with
  | none => rfl
  | some l =>
      have hv := vLocation_toJson (hw.location l hl)
      have hg : (match vLocation (SpaceLocation.toJson l) with
          | .ok l2 => Except.ok (some l2)
          | .error es =>
              .error (es.map (fun (e : FieldError) =>
                FieldError.mk ("location" :: e.loc) e.kind))) =
          .ok (ε := List FieldError) (some l) := by
        rw [hv]
      exact hg

set_option maxHeartbeats 2000000 in
/-- Serializing a well-formed record and normalizing again returns the
same record. -/
theorem serialize_normalize {r : SpaceStatus} (hw : Wf r) :
    normalize (SpaceStatus.serialize r) = .ok r := by
  have hav : handleApiVersions (serFields r) = serFields r := handleApiVersions_serFields hw
  obtain ⟨cleaned, hpre, hfld⟩ := sens_field_roundtrip hw
  have hpre2 : validateSensorsPre (getJ (handleApiVersions (serFields r)) "sensors") =
      .ok cleaned := by
    rw [hav]
    exact hpre
  have hser : SpaceStatus.serialize r = .obj (serFields r) := rfl
  rw [hser]
  have h1 : normalize (.obj (serFields r)) =
      finish (handleApiVersions (serFields r)) (vSensorsFld cleaned) := by
    simp only [normalize]
    rw [hpre2]
  rw [h1, hav, hfld]
  have e1 : vApiCompat (serFields r) = .ok r.api_compatibility :=
    fld_ok (optVal_jOpt_strList r.api_compatibility)
  have e2 : vApi (serFields r) = .ok r.api :=
    fld_ok (optVal_jOpt_str r.api)
  have e3 : vSpace (serFields r) = .ok r.space := rfl
  have e4 : vLogo (serFields r) = .ok r.logo :=
    fld_ok (optVal_jOpt_url hw.logo)
  have e5 : vUrl (serFields r) = .ok r.url :=
    fld_ok (optVal_jOpt_url hw.url)
  have e6 : vLocationFld (serFields r) = .ok r.location := vLocationFld_serFields hw
  have e7 : vContact (serFields r) = .ok r.contact :=
    fld_ok (optVal_jOpt_contact r.contact)
  have e8 : vIssueReport (serFields r) = .ok r.issue_report_channels :=
    fld_ok (optVal_jOpt_strList r.issue_report_channels)
  have e9 : vState (serFields r) = .ok r.state :=
    fld_ok (optVal_jOpt_state hw.state)
  have e10 : vEvents (serFields r) = .ok r.events :=
    fld_ok (optVal_jOpt_events r.events)
  have e11 : vProjects (serFields r) = .ok r.projects :=
    fld_ok (optVal_jOpt_projects hw.projects)
  have e12 : vSpacefed (serFields r) = .ok r.spacefed :=
    fld_ok (optVal_jOpt_boolDict r.spacefed)
  have e13 : vCam (serFields r) = .ok r.cam :=
    fld_ok (optVal_jOpt_urlList hw.cam)
  have e14 : vFeed (serFields r) = .ok r.feed :=
    fld_ok (optVal_jOpt_urlDict hw.feed)
  have e15 : vRadioShow (serFields r) = .ok r.radio_show :=
    fld_ok (optVal_jOpt_urlList hw.radio_show)
  have e16 : vCache (serFields r) = .ok r.cache :=
    fld_ok (optVal_jOpt_anyDict r.cache)
  have e17 : vProjectsUrl (serFields r) = .ok r.projects_url :=
    fld_ok (optVal_jOpt_url hw.projects_url)
  have e19 : vLinks (serFields r) = .ok r.links :=
    fld_ok (optVal_jOpt_links r.links)
  have e20 : vIconFld (serFields r) = .ok r.icon :=
    fld_ok (optVal_jOpt_icon hw.icon)
  have e21 : vTimes (serFields r) = .ok r.times :=
    fld_ok (optVal_jOpt_anyDict r.times)
  have hferr : fieldsErrs (serFields r) (.ok r.sensors) = [] := by
    rw [fieldsErrs, e1, e2, e3, e4, e5, e6, e7, e8, e9, e10, e11, e12, e13, e14,
      e15, e16, e17, e19, e20, e21]
    rfl
  have hbuild : build (serFields r) (.ok r.sensors) = r := by
    rw [build, e1, e2, e3, e4, e5, e6, e7, e8, e9, e10, e11, e12, e13, e14,
      e15, e16, e17, e19, e20, e21]
    rfl
  unfold finish
  rw [if_pos hferr, hbuild]

/-- C8: for every raw document on which normalize succeeds, serializing
the normalized record back to JSON and normalizing again yields the
same result: normalize (serialize (normalize doc)) = normalize doc. -/
theorem c8_idempotent {j : Json} {r : SpaceStatus} (h : normalize j = .ok r) :
    normalize (SpaceStatus.serialize r) = normalize j := by
  rw [h]
  exact serialize_normalize (normalize_wf h)

theorem c8_idempotent_witness :
    normalize (SpaceStatus.serialize ⟨some ["14"], none, "Foo", none, none, none,
      none, none, none, none, none, none, none, none, none, none, none, none,
      none, none, none⟩) = normalize (.obj [("space", .str "Foo")]) :=
  c8_idempotent (j := .obj [("space", .str "Foo")]) rfl

end SpaceAPI
